import Mathlib

/-!
Shallow embedding of the FigJam plugin's layout validation and
spatial-arrangement engine (`src/figma-plugin/code.ts`): the scene model,
`handleValidateLayout`'s five checks (text truncation, overlap, tight
connector gap, connector path obstruction, section bleed), the mutating
operations `handleAlignElements` / `handleDistributeElements`, and the
`resizeParentSections` auto-fit helper.  Numbers are embedded as rationals;
the scene graph is a flat list of elements carrying an optional parent
section id (top-level nodes have `parent = none`).
-/

namespace FigJam

/-- Node types of the FigJam scene graph, as the plugin's `node.type` strings. -/
inductive NType
  | SHAPE_WITH_TEXT
  | STICKY
  | TEXT
  | CONNECTOR
  | SECTION
deriving DecidableEq

/-- One scene-graph node: identity, type, optional parent section, bounds,
text length and font size (for the truncation estimator), and connector
endpoint ids. -/
structure Elem where
  id : Nat
  ntype : NType
  parent : Option Nat
  x : ℚ
  y : ℚ
  w : ℚ
  h : ℚ
  textLen : Nat
  fontSize : ℚ
  startId : Option Nat
  endId : Option Nat
deriving DecidableEq

/-- A validation issue, carrying the structured data the plugin puts into
each issue record (ids and the numeric quantities it computes). -/
inductive Issue
  | textTruncated (elementId : Nat) (suggestedWidth suggestedHeight : ℚ)
  | overlap (aId bId : Nat) (overlapArea : ℚ)
  | tightConnector (connId endNodeId : Nat) (gap : ℚ) (horizontal : Bool) (moveAmount : ℚ)
  | connectorThroughShape (connId startNodeId endNodeId obstacleId : Nat)
  | sectionBleed (elementId sectionId : Nat) (leftBy rightBy topBy bottomBy : Option ℚ)
deriving DecidableEq

/-- The plugin's `findNodeById` (`figma.currentPage.findOne`): first node
with the given id. -/
def findById : List Elem → Nat → Option Elem
  | [], _ => none
  | e :: rest, i => if e.id = i then some e else findById rest i

/-- The page's direct children (`figma.currentPage.children`): nodes with no
parent section. -/
def topChildren (scene : List Elem) : List Elem :=
  scene.filter (fun e => decide (e.parent = none))

/-- A section's direct children (`sec.children`). -/
def childrenOf (scene : List Elem) (pid : Nat) : List Elem :=
  scene.filter (fun e => decide (e.parent = some pid))

/-- The bounding boxes collected for overlap / obstruction checks: top-level
children that are not connectors. -/
def boxesOf (scene : List Elem) : List Elem :=
  (topChildren scene).filter (fun e => decide (e.ntype ≠ NType.CONNECTOR))

/-! ## Text truncation estimator -/

/-- The truncation estimator on a shape of size `w × h` with font size `fs`
and `len` characters of text: returns the suggested `(width, height)` when it
estimates the text does not fit, `none` otherwise.  Mirrors the
`text_truncated` block of `handleValidateLayout` (fontSize falls back to 14
when falsy, `charWidth = fontSize * 0.55`, padding 40, `charsPerLine =
max(1, floor(availableWidth / charWidth))`, `linesNeeded =
ceil(len / charsPerLine)`, `lineHeight = fontSize * 1.4`). -/
def truncCheckF (fontSize w h : ℚ) (len : Nat) : Option (ℚ × ℚ) :=
  if len = 0 then none
  else
    let charWidth := fontSize * (55 / 100)
    let availableWidth := w - 40
    let availableHeight := h - 40
    let charsPerLine : ℤ := max 1 ⌊availableWidth / charWidth⌋
    let linesNeeded : ℤ := ⌈(len : ℚ) / (charsPerLine : ℚ)⌉
    let lineHeight := fontSize * (14 / 10)
    let textHeight : ℚ := (linesNeeded : ℚ) * lineHeight
    if availableHeight < textHeight then
      let suggestedHeight : ℚ := ((⌈textHeight + 40 + 20⌉ : ℤ) : ℚ)
      let suggestedWidth : ℚ :=
        if charsPerLine * 2 < (len : ℤ) then
          max w ((⌈(len : ℚ) * charWidth / 2 + 40⌉ : ℤ) : ℚ)
        else w
      some (suggestedWidth, suggestedHeight)
    else none

/-- The estimator with the code's font-size fallback applied (`fontSize`
falls back to 14 when falsy). -/
def truncCheck (w h fs : ℚ) (len : Nat) : Option (ℚ × ℚ) :=
  truncCheckF (if fs = 0 then 14 else fs) w h len

/-- The truncation issue for one top-level node: only `SHAPE_WITH_TEXT`
nodes with nonempty text are examined. -/
def truncIssue (e : Elem) : Option Issue :=
  if e.ntype = NType.SHAPE_WITH_TEXT then
    match truncCheck e.w e.h e.fontSize e.textLen with
    | some (sw, sh) => some (Issue.textTruncated e.id sw sh)
    | none => none
  else none

/-! ## Overlap detector -/

/-- The overlap test on one ordered pair of collected boxes: sections are
skipped; on strict AABB intersection the intersection area is compared
against 10% of the smaller element's own area. -/
def overlapCheck (A B : Elem) : Option Issue :=
  if A.ntype = NType.SECTION ∨ B.ntype = NType.SECTION then none
  else
    if (A.x < B.x + B.w ∧ A.x + A.w > B.x) ∧ (A.y < B.y + B.h ∧ A.y + A.h > B.y) then
      let ox1 := max A.x B.x
      let oy1 := max A.y B.y
      let ox2 := min (A.x + A.w) (B.x + B.w)
      let oy2 := min (A.y + A.h) (B.y + B.h)
      let overlapArea := (ox2 - ox1) * (oy2 - oy1)
      let smallerArea := min (A.w * A.h) (B.w * B.h)
      if overlapArea > smallerArea * (1 / 10) then
        some (Issue.overlap A.id B.id overlapArea)
      else none
    else none

/-- All ordered pairs `(l[a], l[b])` with `a < b`, in the double-loop order
of the overlap pass. -/
def pairsAfter {α : Type} : List α → List (α × α)
  | [] => []
  | x :: xs => (xs.map (fun y => (x, y))) ++ pairsAfter xs

/-- The overlap pass over the collected boxes. -/
def overlapIssues (boxes : List Elem) : List Issue :=
  (pairsAfter boxes).filterMap (fun p => overlapCheck p.1 p.2)

/-! ## Connector gap analyzer -/

/-- Horizontal gap between two connected elements: the separation when one
is fully to the left of the other, the sentinel `-1` when they overlap
horizontally. -/
def gapH (s e : Elem) : ℚ :=
  if s.x + s.w ≤ e.x then e.x - (s.x + s.w)
  else if e.x + e.w ≤ s.x then s.x - (e.x + e.w)
  else -1

/-- Vertical gap, analogous to `gapH`. -/
def gapV (s e : Elem) : ℚ :=
  if s.y + s.h ≤ e.y then e.y - (s.y + s.h)
  else if e.y + e.h ≤ s.y then s.y - (e.y + e.h)
  else -1

/-- The effective connector gap: `min` when the endpoints are separated on
both axes, the one non-negative gap when separated on one, `-1` when they
overlap on both. -/
def effectiveGap (s e : Elem) : ℚ :=
  if 0 ≤ gapH s e ∧ 0 ≤ gapV s e then min (gapH s e) (gapV s e)
  else if 0 ≤ gapH s e then gapH s e
  else if 0 ≤ gapV s e then gapV s e
  else -1

/-- The tight-connector check for one node of the page (`MIN_CONNECTOR_GAP
= 80`): connectors whose endpoints both resolve and whose effective gap is
non-negative and below 80 produce an issue carrying the measured gap, the
move axis (`true` = horizontally) and the exact distance needed. -/
def tightCheck (scene : List Elem) (cn : Elem) : Option Issue :=
  if cn.ntype = NType.CONNECTOR then
    match cn.startId, cn.endId with
    | some sid, some eid =>
      match findById scene sid, findById scene eid with
      | some s, some en =>
        let g := effectiveGap s en
        if 0 ≤ g ∧ g < 80 then
          let horiz := decide (0 ≤ gapH s en ∧ (gapV s en < 0 ∨ gapH s en ≤ gapV s en))
          some (Issue.tightConnector cn.id en.id g horiz (80 - g))
        else none
      | _, _ => none
    | _, _ => none
  else none

/-- The tight-connector pass over all nodes of the page (`findAll`). -/
def tightIssues (scene : List Elem) : List Issue :=
  scene.filterMap (tightCheck scene)

/-! ## Connector path intersector (Liang–Barsky) -/

/-- The Liang–Barsky clipping loop over the four `(p, q)` edge pairs: a
`p = 0` edge rejects immediately when `q < 0`; otherwise `t = q / p`
tightens `u1` (entering, `p < 0`) or `u2` (leaving, `p > 0`); the segment
intersects iff `u1 ≤ u2` at the end. -/
def lbClip : List (ℚ × ℚ) → ℚ → ℚ → Bool
  | [], u1, u2 => decide (u1 ≤ u2)
  | pq :: rest, u1, u2 =>
    if pq.1 = 0 then
      if pq.2 < 0 then false else lbClip rest u1 u2
    else
      let t := pq.2 / pq.1
      if pq.1 < 0 then lbClip rest (if u1 < t then t else u1) u2
      else lbClip rest u1 (if t < u2 then t else u2)

/-- Whether the segment from `(lx1, ly1)` to `(lx2, ly2)` intersects the
bounding box of `b`, by the Liang–Barsky test with the code's `p`/`q`
arrays and initial interval `[0, 1]`. -/
def segHitsBox (lx1 ly1 lx2 ly2 : ℚ) (b : Elem) : Bool :=
  let dx := lx2 - lx1
  let dy := ly2 - ly1
  lbClip [(-dx, lx1 - b.x), (dx, b.x + b.w - lx1), (-dy, ly1 - b.y), (dy, b.y + b.h - ly1)] 0 1

/-- The obstruction issues for one connector with resolved endpoints `s`,
`en`: every collected box that is not a section, not a text node and not
one of the endpoints is tested against the center-to-center segment. -/
def pathIssuesFor (boxes : List Elem) (cn s en : Elem) : List Issue :=
  (boxes.filter (fun bx =>
      decide (bx.ntype ≠ NType.SECTION) && decide (bx.ntype ≠ NType.TEXT) &&
      decide (bx.id ≠ s.id) && decide (bx.id ≠ en.id) &&
      segHitsBox (s.x + s.w / 2) (s.y + s.h / 2) (en.x + en.w / 2) (en.y + en.h / 2) bx)).map
    (fun bx => Issue.connectorThroughShape cn.id s.id en.id bx.id)

/-- The path check for one node of the page: connectors whose endpoints
both resolve are tested against all collected boxes. -/
def pathCheck (scene boxes : List Elem) (cn : Elem) : List Issue :=
  if cn.ntype = NType.CONNECTOR then
    match cn.startId, cn.endId with
    | some sid, some eid =>
      match findById scene sid, findById scene eid with
      | some s, some en => pathIssuesFor boxes cn s en
      | _, _ => []
    | _, _ => []
  else []

/-- The connector-path pass over all nodes of the page. -/
def pathIssues (scene boxes : List Elem) : List Issue :=
  scene.flatMap (pathCheck scene boxes)

/-! ## Section bleed detector -/

/-- Structural bleed of one actual child of a section (coordinates relative
to the section, `SECTION_PADDING = 40`): connector children are skipped;
each violated edge is reported with its overflow. -/
def structuralBleedFor (sec c : Elem) : Option Issue :=
  if c.ntype = NType.CONNECTOR then none
  else
    let leftBy : Option ℚ := if c.x < 0 then some (-c.x) else none
    let rightBy : Option ℚ := if c.x + c.w > sec.w then some (c.x + c.w - sec.w) else none
    let topBy : Option ℚ := if c.y < 40 then some (40 - c.y) else none
    let bottomBy : Option ℚ := if c.y + c.h > sec.h then some (c.y + c.h - sec.h) else none
    if leftBy.isSome || rightBy.isSome || topBy.isSome || bottomBy.isSome then
      some (Issue.sectionBleed c.id sec.id leftBy rightBy topBy bottomBy)
    else none

/-- Pass (a) of the bleed detector for one section: its actual children. -/
def structuralBleedIssues (scene : List Elem) (sec : Elem) : List Issue :=
  (childrenOf scene sec.id).filterMap (structuralBleedFor sec)

/-- Visual bleed of one collected box against a section (absolute
coordinates): boxes whose center falls strictly inside the section are
checked against a 10px inset on left/right/bottom and the 40px header. -/
def visualBleedFor (sec c : Elem) : Option Issue :=
  if c.ntype = NType.SECTION then none
  else if c.id = sec.id then none
  else
    let cx := c.x + c.w / 2
    let cy := c.y + c.h / 2
    if (cx > sec.x ∧ cx < sec.x + sec.w) ∧ (cy > sec.y ∧ cy < sec.y + sec.h) then
      let leftBy : Option ℚ := if c.x < sec.x + 10 then some (sec.x + 10 - c.x) else none
      let rightBy : Option ℚ :=
        if c.x + c.w > sec.x + sec.w - 10 then some (c.x + c.w - (sec.x + sec.w) + 10) else none
      let topBy : Option ℚ := if c.y < sec.y + 40 then some (sec.y + 40 - c.y) else none
      let bottomBy : Option ℚ :=
        if c.y + c.h > sec.y + sec.h - 10 then some (c.y + c.h - (sec.y + sec.h) + 10) else none
      if leftBy.isSome || rightBy.isSome || topBy.isSome || bottomBy.isSome then
        some (Issue.sectionBleed c.id sec.id leftBy rightBy topBy bottomBy)
      else none
    else none

/-- Both bleed passes, looping over the page's top-level sections. -/
def bleedIssues (scene : List Elem) : List Issue :=
  (topChildren scene).flatMap (fun sNode =>
    if sNode.ntype = NType.SECTION then
      structuralBleedIssues scene sNode ++
        (boxesOf scene).filterMap (visualBleedFor sNode)
    else [])

/-- The embedded `handleValidateLayout`: truncation issues for the page's
top-level shapes, then overlap, tight-connector, connector-path and
section-bleed issues, in the code's push order. -/
def validateLayout (scene : List Elem) : List Issue :=
  let boxes := boxesOf scene
  ((topChildren scene).filterMap truncIssue)
    ++ overlapIssues boxes
    ++ tightIssues scene
    ++ pathIssues scene boxes
    ++ bleedIssues scene

/-! ## Alignment engine -/

/-- Resolve element ids against the scene, silently skipping missing ones. -/
def resolveNodes (scene : List Elem) (ids : List Nat) : List Elem :=
  ids.filterMap (findById scene)

/-- `nodes[0].x` then fold with `min`, as in the `left` case's loop. -/
def minXof : List Elem → ℚ
  | [] => 0
  | e :: rest => rest.foldl (fun m c => min m c.x) e.x

/-- Maximum right edge `x + width` over the nodes, seeded with the first. -/
def maxRightOf : List Elem → ℚ
  | [] => 0
  | e :: rest => rest.foldl (fun m c => max m (c.x + c.w)) (e.x + e.w)

/-- `nodes[0].y` then fold with `min`. -/
def minYof : List Elem → ℚ
  | [] => 0
  | e :: rest => rest.foldl (fun m c => min m c.y) e.y

/-- Maximum bottom edge `y + height` over the nodes. -/
def maxBottomOf : List Elem → ℚ
  | [] => 0
  | e :: rest => rest.foldl (fun m c => max m (c.y + c.h)) (e.y + e.h)

/-- Sum of horizontal centers `x + width / 2`. -/
def sumCenterX (nodes : List Elem) : ℚ :=
  nodes.foldl (fun t e => t + (e.x + e.w / 2)) 0

/-- Sum of vertical centers `y + height / 2`. -/
def sumCenterY (nodes : List Elem) : ℚ :=
  nodes.foldl (fun t e => t + (e.y + e.h / 2)) 0

/-- The switch of `handleAlignElements`, repositioning the resolved nodes
in place: an unknown alignment moves nothing. -/
def alignNodes (nodes : List Elem) (alignment : String) : List Elem :=
  match alignment with
  | "left" =>
    let m := minXof nodes
    nodes.map (fun e => { e with x := m })
  | "right" =>
    let r := maxRightOf nodes
    nodes.map (fun e => { e with x := r - e.w })
  | "center" =>
    let a := sumCenterX nodes / (nodes.length : ℚ)
    nodes.map (fun e => { e with x := a - e.w / 2 })
  | "top" =>
    let m := minYof nodes
    nodes.map (fun e => { e with y := m })
  | "bottom" =>
    let b := maxBottomOf nodes
    nodes.map (fun e => { e with y := b - e.h })
  | "middle" =>
    let a := sumCenterY nodes / (nodes.length : ℚ)
    nodes.map (fun e => { e with y := a - e.h / 2 })
  | _ => nodes

/-- Write one repositioned node's coordinates back into the scene. -/
def setXY (scene : List Elem) (m : Elem) : List Elem :=
  scene.map (fun e => if e.id = m.id then { e with x := m.x, y := m.y } else e)

/-- Write all repositioned nodes back, in order (later writes win, as with
sequential in-place mutation). -/
def applyPositions (scene : List Elem) (moved : List Elem) : List Elem :=
  moved.foldl setXY scene

/-! ## Section auto-fit -/

/-- Auto-fit one section (`SECTION_PADDING = 40`): compute the children's
bounding box in section-relative coordinates, shift every child right/down
by the deficit when the minimum child x/y sits above or left of the margin,
then grow (never shrink) the section to wrap `maxEdge + 40` on each axis. -/
def autofitSection (sc : List Elem) (pid : Nat) : List Elem :=
  let kids := childrenOf sc pid
  if kids = [] then sc
  else
    let minX := minXof kids
    let minY := minYof kids
    let maxX := maxRightOf kids
    let maxY := maxBottomOf kids
    let shiftX := if minX < 40 then 40 - minX else 0
    let shiftY := if minY < 40 then 40 - minY else 0
    let newW := (maxX + shiftX) + 40
    let newH := (maxY + shiftY) + 40
    sc.map (fun e =>
      if e.parent = some pid then { e with x := e.x + shiftX, y := e.y + shiftY }
      else if e.id = pid then
        (if newW > e.w ∨ newH > e.h then { e with w := max newW e.w, h := max newH e.h } else e)
      else e)

/-- The loop of `resizeParentSections`: for each moved node whose parent is
a section not yet visited, auto-fit that section. -/
def rpsAux : List Elem → List Nat → List Elem → List Elem
  | sc, _, [] => sc
  | sc, visited, n :: rest =>
    match n.parent with
    | none => rpsAux sc visited rest
    | some pid =>
      if pid ∈ visited then rpsAux sc visited rest
      else
        match findById sc pid with
        | some p =>
          if p.ntype = NType.SECTION then rpsAux (autofitSection sc pid) (pid :: visited) rest
          else rpsAux sc visited rest
        | none => rpsAux sc visited rest

/-- `resizeParentSections`, deduplicating parent sections via the visited
set. -/
def resizeParentSections (sc : List Elem) (moved : List Elem) : List Elem :=
  rpsAux sc [] moved

/-- The embedded `handleAlignElements`: resolve, no-op below 2 nodes,
reposition, then auto-fit the touched parent sections. -/
def handleAlignElements (scene : List Elem) (elementIds : List Nat) (alignment : String) :
    List Elem :=
  let nodes := resolveNodes scene elementIds
  if nodes.length < 2 then scene
  else resizeParentSections (applyPositions scene (alignNodes nodes alignment)) nodes

/-! ## Distribution engine -/

/-- Sequential horizontal placement: each node is placed at the running
cursor, which advances by the node's width plus the gap. -/
def placeXAux (gap : ℚ) : ℚ → List Elem → List Elem
  | _, [] => []
  | cur, e :: rest => { e with x := cur } :: placeXAux gap (cur + e.w + gap) rest

/-- Sequential vertical placement. -/
def placeYAux (gap : ℚ) : ℚ → List Elem → List Elem
  | _, [] => []
  | cur, e :: rest => { e with y := cur } :: placeYAux gap (cur + e.h + gap) rest

/-- The embedded `handleDistributeElements`: resolve, no-op below 3 nodes,
sort by the leading coordinate, apply the gap `max(naturalGap, minSpacing)`
sequentially from the first node's coordinate, then auto-fit. -/
def handleDistributeElements (scene : List Elem) (elementIds : List Nat) (direction : String)
    (minSpacing : ℚ) : List Elem :=
  let nodes := resolveNodes scene elementIds
  if nodes.length < 3 then scene
  else if direction = "horizontal" then
    match List.insertionSort (fun a b => a.x ≤ b.x) nodes with
    | [] => scene
    | first :: restSorted =>
      let sorted := first :: restSorted
      let firstLeft := first.x
      let totalElementWidth := sorted.foldl (fun t e => t + e.w) 0
      let lastE := restSorted.getLastD first
      let naturalGap := ((lastE.x + lastE.w - firstLeft) - totalElementWidth) /
        ((sorted.length : ℚ) - 1)
      let gap := max naturalGap minSpacing
      resizeParentSections (applyPositions scene (placeXAux gap firstLeft sorted)) sorted
  else
    match List.insertionSort (fun a b => a.y ≤ b.y) nodes with
    | [] => scene
    | first :: restSorted =>
      let sorted := first :: restSorted
      let firstTop := first.y
      let totalElementHeight := sorted.foldl (fun t e => t + e.h) 0
      let lastE := restSorted.getLastD first
      let naturalGapV := ((lastE.y + lastE.h - firstTop) - totalElementHeight) /
        ((sorted.length : ℚ) - 1)
      let gapV := max naturalGapV minSpacing
      resizeParentSections (applyPositions scene (placeYAux gapV firstTop sorted)) sorted

/-! ## Call sequences -/

/-- One mutating operation against the scene. -/
inductive Call
  | alignEls (ids : List Nat) (alignment : String)
  | distributeEls (ids : List Nat) (direction : String) (spacing : ℚ)

/-- Apply one mutating operation. -/
def applyCall (sc : List Elem) : Call → List Elem
  | Call.alignEls ids a => handleAlignElements sc ids a
  | Call.distributeEls ids d sp => handleDistributeElements sc ids d sp

/-- Apply a sequence of mutating operations. -/
def applyCalls (sc : List Elem) (calls : List Call) : List Elem :=
  calls.foldl applyCall sc

/-! ## Concrete scene builders used by the claim instances -/

/-- A top-level box-like node with no text and default font size. -/
def mkBox (i : Nat) (t : NType) (x y w h : ℚ) : Elem :=
  ⟨i, t, none, x, y, w, h, 0, 14, none, none⟩

/-- A node that is an actual child of the section with id `pid`. -/
def mkChild (i : Nat) (t : NType) (pid : Nat) (x y w h : ℚ) : Elem :=
  ⟨i, t, some pid, x, y, w, h, 0, 14, none, none⟩

/-- A top-level connector between the nodes with ids `sid` and `eid`. -/
def mkConn (i sid eid : Nat) : Elem :=
  ⟨i, NType.CONNECTOR, none, 0, 0, 0, 0, 0, 14, some sid, some eid⟩

/-! ## Overlap detector: supporting definitions and lemmas -/

/-- Intersection area of the two AABBs, as the overlap pass computes it
(`(ox2 - ox1) * (oy2 - oy1)`). -/
def interArea (A B : Elem) : ℚ :=
  (min (A.x + A.w) (B.x + B.w) - max A.x B.x) * (min (A.y + A.h) (B.y + B.h) - max A.y B.y)

/-- The smaller of the two elements' own areas. -/
def smallerArea (A B : Elem) : ℚ :=
  min (A.w * A.h) (B.w * B.h)

/-- Closed-sense intersection of the two AABBs: the two x-ranges meet and
the two y-ranges meet. -/
def ClosedIntersect (A B : Elem) : Prop :=
  max A.x B.x ≤ min (A.x + A.w) (B.x + B.w) ∧ max A.y B.y ≤ min (A.y + A.h) (B.y + B.h)

theorem interArea_comm (A B : Elem) : interArea A B = interArea B A := by
  simp [interArea, min_comm, max_comm]

theorem smallerArea_comm (A B : Elem) : smallerArea A B = smallerArea B A := by
  simp [smallerArea, min_comm]

/-- What the overlap test reports, as a proposition. -/
theorem overlapCheck_isSome_iff (A B : Elem) :
    (overlapCheck A B).isSome = true ↔
      (A.ntype ≠ NType.SECTION ∧ B.ntype ≠ NType.SECTION) ∧
      ((A.x < B.x + B.w ∧ B.x < A.x + A.w) ∧ (A.y < B.y + B.h ∧ B.y < A.y + A.h)) ∧
      smallerArea A B * (1 / 10) < interArea A B := by
  unfold overlapCheck
  by_cases h1 : A.ntype = NType.SECTION ∨ B.ntype = NType.SECTION
  · rw [if_pos h1]
    simp only [Option.isSome_none, Bool.false_eq_true, false_iff]
    tauto
  · rw [if_neg h1]
    by_cases h2 : (A.x < B.x + B.w ∧ A.x + A.w > B.x) ∧ (A.y < B.y + B.h ∧ A.y + A.h > B.y)
    · rw [if_pos h2]
      by_cases h3 : smallerArea A B * (1 / 10) < interArea A B
      · have h3' := h3
        simp only [interArea, smallerArea] at h3'
        rw [if_pos h3']
        simp only [Option.isSome_some, true_iff]
        exact ⟨⟨fun hc => h1 (Or.inl hc), fun hc => h1 (Or.inr hc)⟩,
          ⟨⟨h2.1.1, h2.1.2⟩, ⟨h2.2.1, h2.2.2⟩⟩, h3⟩
      · have h3' : ¬(((A.x + A.w) ⊓ (B.x + B.w) - A.x ⊔ B.x) *
            ((A.y + A.h) ⊓ (B.y + B.h) - A.y ⊔ B.y) > (A.w * A.h ⊓ B.w * B.h) * (1 / 10)) := by
          simp only [interArea, smallerArea] at h3
          exact h3
        rw [if_neg h3']
        simp only [Option.isSome_none, Bool.false_eq_true, false_iff]
        intro hc
        exact h3 hc.2.2
    · rw [if_neg h2]
      simp only [Option.isSome_none, Bool.false_eq_true, false_iff]
      intro hc
      exact h2 ⟨⟨hc.2.1.1.1, hc.2.1.1.2⟩, ⟨hc.2.1.2.1, hc.2.1.2.2⟩⟩


/-- C1: for every unordered pair of non-Connector, non-Section elements
whose AABBs intersect (closed sense, with positive sizes), the overlap pass
reports iff the intersection area strictly exceeds 10% of the smaller
element's own area; reporting is invariant to the order of the pair; every
positively-tested pair of the collected boxes yields its issue in the pass
output; and concretely two 100×100 boxes sharing exactly a 10×100 strip are
not reported by the validator while a 10.1×100 strip is. -/
theorem overlap_ten_percent_threshold :
    (∀ A B : Elem, A.ntype ≠ NType.SECTION → B.ntype ≠ NType.SECTION →
      0 < A.w → 0 < A.h → 0 < B.w → 0 < B.h → ClosedIntersect A B →
      ((overlapCheck A B).isSome = true ↔ smallerArea A B * (1 / 10) < interArea A B)) ∧
    (∀ A B : Elem, (overlapCheck A B).isSome = (overlapCheck B A).isSome) ∧
    (∀ (boxes : List Elem) (p : Elem × Elem), p ∈ pairsAfter boxes →
      ∀ i : Issue, overlapCheck p.1 p.2 = some i → i ∈ overlapIssues boxes) ∧
    validateLayout [mkBox 1 NType.SHAPE_WITH_TEXT 0 0 100 100,
      mkBox 2 NType.SHAPE_WITH_TEXT 90 0 100 100] = [] ∧
    validateLayout [mkBox 1 NType.SHAPE_WITH_TEXT 0 0 100 100,
      mkBox 2 NType.SHAPE_WITH_TEXT (899 / 10) 0 100 100] = [Issue.overlap 1 2 1010] := by
  refine ⟨?_, ?_, ?_, ?_, ?_⟩
  · intro A B hA hB hAw hAh hBw hBh hInt
    rw [overlapCheck_isSome_iff]
    constructor
    · rintro ⟨-, -, h⟩
      exact h
    · intro h
      refine ⟨⟨hA, hB⟩, ?_, h⟩
      by_contra hS
      have hsm : 0 < smallerArea A B := lt_min (mul_pos hAw hAh) (mul_pos hBw hBh)
      have hia : 0 < interArea A B := lt_trans (mul_pos hsm (by norm_num)) h
      rcases hInt with ⟨hIx, hIy⟩
      have hyf : 0 ≤ min (A.y + A.h) (B.y + B.h) - max A.y B.y := by linarith
      have hxf : 0 ≤ min (A.x + A.w) (B.x + B.w) - max A.x B.x := by linarith
      rcases not_and_or.mp hS with hSx | hSy
      · rcases not_and_or.mp hSx with hc | hc
        · have h1 := min_le_right (A.x + A.w) (B.x + B.w)
          have h2 := le_max_left A.x B.x
          have hx0 : min (A.x + A.w) (B.x + B.w) - max A.x B.x ≤ 0 := by
            have := not_lt.mp hc
            linarith
          have : interArea A B ≤ 0 := by
            unfold interArea
            nlinarith
          linarith
        · have h1 := min_le_left (A.x + A.w) (B.x + B.w)
          have h2 := le_max_right A.x B.x
          have hx0 : min (A.x + A.w) (B.x + B.w) - max A.x B.x ≤ 0 := by
            have := not_lt.mp hc
            linarith
          have : interArea A B ≤ 0 := by
            unfold interArea
            nlinarith
          linarith
      · rcases not_and_or.mp hSy with hc | hc
        · have h1 := min_le_right (A.y + A.h) (B.y + B.h)
          have h2 := le_max_left A.y B.y
          have hy0 : min (A.y + A.h) (B.y + B.h) - max A.y B.y ≤ 0 := by
            have := not_lt.mp hc
            linarith
          have : interArea A B ≤ 0 := by
            unfold interArea
            nlinarith
          linarith
        · have h1 := min_le_left (A.y + A.h) (B.y + B.h)
          have h2 := le_max_right A.y B.y
          have hy0 : min (A.y + A.h) (B.y + B.h) - max A.y B.y ≤ 0 := by
            have := not_lt.mp hc
            linarith
          have : interArea A B ≤ 0 := by
            unfold interArea
            nlinarith
          linarith
  · intro A B
    rw [Bool.eq_iff_iff, overlapCheck_isSome_iff, overlapCheck_isSome_iff,
      interArea_comm B A, smallerArea_comm B A]
    constructor <;> rintro ⟨⟨p, q⟩, ⟨⟨a, b⟩, c, d⟩, t⟩ <;> exact ⟨⟨q, p⟩, ⟨⟨b, a⟩, d, c⟩, t⟩
  · intro boxes p hp i hi
    exact List.mem_filterMap.mpr ⟨p, hp, hi⟩
  · norm_num [validateLayout, boxesOf, topChildren, mkBox, truncIssue, overlapIssues,
      pairsAfter, overlapCheck, tightIssues, tightCheck, pathIssues, pathCheck,
      bleedIssues, List.filterMap, List.filter, List.flatMap, truncCheck]
    decide
  · norm_num [validateLayout, boxesOf, topChildren, mkBox, truncIssue, overlapIssues,
      pairsAfter, overlapCheck, tightIssues, tightCheck, pathIssues, pathCheck,
      bleedIssues, List.filterMap, List.filter, List.flatMap, truncCheck]
    decide

/-- C2: the connector gap analyzer's gaps are `-1` sentinels or non-negative
separations; the effective gap is the minimum when both axes separate, the
single non-negative gap when one does; a resolvable connector is reported
iff its effective gap is non-negative and strictly below 80, carrying the
gap, the preferred axis (horizontal when `gapH` binds) and exactly
`80 - gap`; concretely endpoints at x = 0 (width 100) and x = 200 yield no
issue while x = 150 yields a move of exactly 30. -/
theorem tight_connector_gap_threshold :
    (∀ s e : Elem, (gapH s e = -1 ∨ 0 ≤ gapH s e) ∧ (gapV s e = -1 ∨ 0 ≤ gapV s e)) ∧
    (∀ s e : Elem,
      (0 ≤ gapH s e → 0 ≤ gapV s e → effectiveGap s e = min (gapH s e) (gapV s e)) ∧
      (0 ≤ gapH s e → gapV s e < 0 → effectiveGap s e = gapH s e) ∧
      (gapH s e < 0 → 0 ≤ gapV s e → effectiveGap s e = gapV s e) ∧
      (gapH s e < 0 → gapV s e < 0 → effectiveGap s e = -1)) ∧
    (∀ (scene : List Elem) (cn : Elem) (sid eid : Nat) (s en : Elem),
      cn.ntype = NType.CONNECTOR → cn.startId = some sid → cn.endId = some eid →
      findById scene sid = some s → findById scene eid = some en →
      tightCheck scene cn =
        (if 0 ≤ effectiveGap s en ∧ effectiveGap s en < 80 then
          some (Issue.tightConnector cn.id en.id (effectiveGap s en)
            (decide (0 ≤ gapH s en ∧ (gapV s en < 0 ∨ gapH s en ≤ gapV s en)))
            (80 - effectiveGap s en))
        else none)) ∧
    validateLayout [mkBox 1 NType.SHAPE_WITH_TEXT 0 0 100 100,
      mkBox 2 NType.SHAPE_WITH_TEXT 200 0 100 100, mkConn 3 1 2] = [] ∧
    validateLayout [mkBox 1 NType.SHAPE_WITH_TEXT 0 0 100 100,
      mkBox 2 NType.SHAPE_WITH_TEXT 150 0 100 100, mkConn 3 1 2] =
      [Issue.tightConnector 3 2 50 true 30] := by
  refine ⟨?_, ?_, ?_, ?_, ?_⟩
  · intro s e
    constructor
    · unfold gapH
      split_ifs with h1 h2
      · exact Or.inr (by linarith)
      · exact Or.inr (by linarith)
      · exact Or.inl rfl
    · unfold gapV
      split_ifs with h1 h2
      · exact Or.inr (by linarith)
      · exact Or.inr (by linarith)
      · exact Or.inl rfl
  · intro s e
    refine ⟨?_, ?_, ?_, ?_⟩
    · intro h1 h2
      unfold effectiveGap
      rw [if_pos ⟨h1, h2⟩]
    · intro h1 h2
      unfold effectiveGap
      rw [if_neg (fun hc => absurd hc.2 (not_le.mpr h2)), if_pos h1]
    · intro h1 h2
      unfold effectiveGap
      rw [if_neg (fun hc => absurd hc.1 (not_le.mpr h1)),
        if_neg (not_le.mpr h1), if_pos h2]
    · intro h1 h2
      unfold effectiveGap
      rw [if_neg (fun hc => absurd hc.1 (not_le.mpr h1)),
        if_neg (not_le.mpr h1), if_neg (not_le.mpr h2)]
  · intro scene cn sid eid s en hcn hs he hfs hfe
    simp only [tightCheck, hcn, hs, he, hfs, hfe, if_true]
  · norm_num [validateLayout, boxesOf, topChildren, mkBox, mkConn, truncIssue,
      overlapIssues, pairsAfter, overlapCheck, tightIssues, tightCheck, findById,
      effectiveGap, gapH, gapV, pathIssues, pathCheck, pathIssuesFor, segHitsBox,
      lbClip, bleedIssues, List.filterMap, List.filter, List.flatMap, truncCheck]
    decide
  · norm_num [validateLayout, boxesOf, topChildren, mkBox, mkConn, truncIssue,
      overlapIssues, pairsAfter, overlapCheck, tightIssues, tightCheck, findById,
      effectiveGap, gapH, gapV, pathIssues, pathCheck, pathIssuesFor, segHitsBox,
      lbClip, bleedIssues, List.filterMap, List.filter, List.flatMap, truncCheck]
    decide

/-- C3: for a connector with resolved endpoints, each examined box that is
not a Section, not a Text node and not an endpoint is reported as an
obstruction exactly when the Liang–Barsky test on the center-to-center
segment succeeds; the clipping loop starts from `[0, 1]`, rejects
immediately on a `p = 0` edge with `q < 0` and accepts exactly when
`u1 ≤ u2` at the end; concretely an obstruction at `(150, 0, 100, 100)`
between shapes at `(0, 0, 100, 100)` and `(300, 0, 100, 100)` is reported
by the validator and moving it to `(150, 300, 100, 100)` clears the issue. -/
theorem connector_path_liang_barsky :
    (∀ u1 u2 : ℚ, lbClip [] u1 u2 = decide (u1 ≤ u2)) ∧
    (∀ (rest : List (ℚ × ℚ)) (q u1 u2 : ℚ), q < 0 → lbClip ((0, q) :: rest) u1 u2 = false) ∧
    (∀ (rest : List (ℚ × ℚ)) (q u1 u2 : ℚ), ¬q < 0 →
      lbClip ((0, q) :: rest) u1 u2 = lbClip rest u1 u2) ∧
    (∀ (boxes : List Elem) (cn s en bx : Elem), (boxes.map Elem.id).Nodup → bx ∈ boxes →
      bx.ntype ≠ NType.SECTION → bx.ntype ≠ NType.TEXT → bx.id ≠ s.id → bx.id ≠ en.id →
      (Issue.connectorThroughShape cn.id s.id en.id bx.id ∈ pathIssuesFor boxes cn s en ↔
        segHitsBox (s.x + s.w / 2) (s.y + s.h / 2) (en.x + en.w / 2) (en.y + en.h / 2) bx =
          true)) ∧
    validateLayout [mkBox 1 NType.SHAPE_WITH_TEXT 0 0 100 100,
      mkBox 2 NType.SHAPE_WITH_TEXT 300 0 100 100,
      mkBox 3 NType.SHAPE_WITH_TEXT 150 0 100 100, mkConn 4 1 2] =
      [Issue.connectorThroughShape 4 1 2 3] ∧
    validateLayout [mkBox 1 NType.SHAPE_WITH_TEXT 0 0 100 100,
      mkBox 2 NType.SHAPE_WITH_TEXT 300 0 100 100,
      mkBox 3 NType.SHAPE_WITH_TEXT 150 300 100 100, mkConn 4 1 2] = [] := by
  refine ⟨fun u1 u2 => rfl, ?_, ?_, ?_, ?_, ?_⟩
  · intro rest q u1 u2 hq
    simp [lbClip, hq]
  · intro rest q u1 u2 hq
    simp [lbClip, hq]
  · intro boxes cn s en bx hnodup hmem hns hnt hnid1 hnid2
    unfold pathIssuesFor
    constructor
    · intro hin
      rcases List.mem_map.mp hin with ⟨b, hbf, hbeq⟩
      have hbid : b.id = bx.id := by
        simpa using congrArg (fun i => match i with
          | Issue.connectorThroughShape _ _ _ o => o
          | _ => 0) hbeq
      rcases List.mem_filter.mp hbf with ⟨hbmem, hpred⟩
      have hb : b = bx := List.inj_on_of_nodup_map hnodup hbmem hmem hbid
      subst hb
      simp only [Bool.and_eq_true, decide_eq_true_eq] at hpred
      exact hpred.2
    · intro hseg
      refine List.mem_map.mpr ⟨bx, List.mem_filter.mpr ⟨hmem, ?_⟩, rfl⟩
      simp only [Bool.and_eq_true, decide_eq_true_eq]
      exact ⟨⟨⟨⟨hns, hnt⟩, hnid1⟩, hnid2⟩, hseg⟩
  · norm_num [validateLayout, boxesOf, topChildren, mkBox, mkConn, truncIssue,
      overlapIssues, pairsAfter, overlapCheck, tightIssues, tightCheck, findById,
      effectiveGap, gapH, gapV, pathIssues, pathCheck, pathIssuesFor, segHitsBox,
      lbClip, bleedIssues, List.filterMap, List.filter, List.flatMap, truncCheck]
    decide
  · norm_num [validateLayout, boxesOf, topChildren, mkBox, mkConn, truncIssue,
      overlapIssues, pairsAfter, overlapCheck, tightIssues, tightCheck, findById,
      effectiveGap, gapH, gapV, pathIssues, pathCheck, pathIssuesFor, segHitsBox,
      lbClip, bleedIssues, List.filterMap, List.filter, List.flatMap, truncCheck]
    decide

/-- C6 counterexample: distributing the three width-50 elements at
x = 0, 60, 500 horizontally with minimum spacing 60 does not place them at
x = 0, 110, 220 — the natural gap (200) exceeds the floor, so the code
keeps it. -/
theorem distribute_concrete_counterexample :
    (handleDistributeElements [mkBox 1 NType.SHAPE_WITH_TEXT 0 0 50 50,
        mkBox 2 NType.SHAPE_WITH_TEXT 60 0 50 50,
        mkBox 3 NType.SHAPE_WITH_TEXT 500 0 50 50] [1, 2, 3] "horizontal" 60).map Elem.x ≠
      [0, 110, 220] := by
  norm_num [handleDistributeElements, resolveNodes, findById, List.filterMap,
    List.insertionSort, List.orderedInsert, placeXAux, applyPositions, setXY,
    resizeParentSections, rpsAux, mkBox, List.getLastD]

/-- C6 amended: sequential placement puts the first sorted node at the first
node's original leading coordinate and advances by width plus gap, the gap
being `max(naturalGap, minSpacing)`; on the concrete input the natural gap
`((550 - 0) - 150) / 2 = 200` exceeds the floor 60, so the elements land at
x = 0, 250, 500 (gaps of exactly 200). -/
theorem distribute_applies_max_gap :
    (∀ (gap cur : ℚ) (e : Elem) (rest : List Elem),
      placeXAux gap cur (e :: rest) =
        { e with x := cur } :: placeXAux gap (cur + e.w + gap) rest) ∧
    (handleDistributeElements [mkBox 1 NType.SHAPE_WITH_TEXT 0 0 50 50,
        mkBox 2 NType.SHAPE_WITH_TEXT 60 0 50 50,
        mkBox 3 NType.SHAPE_WITH_TEXT 500 0 50 50] [1, 2, 3] "horizontal" 60).map Elem.x =
      [0, 250, 500] := by
  constructor
  · intro gap cur e rest
    rfl
  · norm_num [handleDistributeElements, resolveNodes, findById, List.filterMap,
      List.insertionSort, List.orderedInsert, placeXAux, applyPositions, setXY,
      resizeParentSections, rpsAux, mkBox, List.getLastD]

/-! ## Alignment: fold characterizations -/

theorem foldl_min_le (l : List Elem) (a : ℚ) :
    l.foldl (fun m c => min m c.x) a ≤ a := by
  induction l generalizing a with
  | nil => exact le_refl a
  | cons c t ih => exact le_trans (ih (min a c.x)) (min_le_left _ _)

theorem foldl_min_le_of_mem (l : List Elem) (a : ℚ) (e : Elem) (h : e ∈ l) :
    l.foldl (fun m c => min m c.x) a ≤ e.x := by
  induction l generalizing a with
  | nil => cases h
  | cons c t ih =>
    rcases List.mem_cons.mp h with he | he
    · subst he
      exact le_trans (foldl_min_le t (min a e.x)) (min_le_right _ _)
    · exact ih (min a c.x) he

theorem foldl_min_eq_or_mem (l : List Elem) (a : ℚ) :
    l.foldl (fun m c => min m c.x) a = a ∨
      l.foldl (fun m c => min m c.x) a ∈ l.map Elem.x := by
  induction l generalizing a with
  | nil => exact Or.inl rfl
  | cons c t ih =>
    rcases ih (min a c.x) with h | h
    · rcases min_choice a c.x with hm | hm
      · exact Or.inl (by rw [List.foldl_cons, h, hm])
      · exact Or.inr (by rw [List.foldl_cons, h, hm]; exact List.mem_cons_self _ _)
    · exact Or.inr (List.mem_cons_of_mem _ h)

theorem le_foldl_max (l : List Elem) (a : ℚ) :
    a ≤ l.foldl (fun m c => max m (c.x + c.w)) a := by
  induction l generalizing a with
  | nil => exact le_refl a
  | cons c t ih => exact le_trans (le_max_left _ _) (ih (max a (c.x + c.w)))

theorem le_foldl_max_of_mem (l : List Elem) (a : ℚ) (e : Elem) (h : e ∈ l) :
    e.x + e.w ≤ l.foldl (fun m c => max m (c.x + c.w)) a := by
  induction l generalizing a with
  | nil => cases h
  | cons c t ih =>
    rcases List.mem_cons.mp h with he | he
    · subst he
      exact le_trans (le_max_right _ _) (le_foldl_max t (max a (e.x + e.w)))
    · exact ih (max a (c.x + c.w)) he

theorem foldl_max_eq_or_mem (l : List Elem) (a : ℚ) :
    l.foldl (fun m c => max m (c.x + c.w)) a = a ∨
      l.foldl (fun m c => max m (c.x + c.w)) a ∈ l.map (fun c => c.x + c.w) := by
  induction l generalizing a with
  | nil => exact Or.inl rfl
  | cons c t ih =>
    rcases ih (max a (c.x + c.w)) with h | h
    · rcases max_choice a (c.x + c.w) with hm | hm
      · exact Or.inl (by rw [List.foldl_cons, h, hm])
      · exact Or.inr (by rw [List.foldl_cons, h, hm]; exact List.mem_cons_self _ _)
    · exact Or.inr (List.mem_cons_of_mem _ h)

theorem foldl_add_map_sum (l : List Elem) (a : ℚ) :
    l.foldl (fun t e => t + (e.x + e.w / 2)) a = a + (l.map (fun e => e.x + e.w / 2)).sum := by
  induction l generalizing a with
  | nil => simp
  | cons c t ih =>
    rw [List.foldl_cons, ih (a + (c.x + c.w / 2)), List.map_cons, List.sum_cons]
    ring

/-- The minimum-x seed-fold is the least x of a nonempty node list. -/
theorem minXof_spec (nodes : List Elem) (hne : nodes ≠ []) :
    (∀ e ∈ nodes, minXof nodes ≤ e.x) ∧ minXof nodes ∈ nodes.map Elem.x := by
  match nodes with
  | [] => exact absurd rfl hne
  | a :: l =>
    constructor
    · intro e he
      rcases List.mem_cons.mp he with he | he
      · subst he
        exact foldl_min_le l e.x
      · exact foldl_min_le_of_mem l a.x e he
    · rcases foldl_min_eq_or_mem l a.x with h | h
      · show List.foldl (fun m c => min m c.x) a.x l ∈ (a :: l).map Elem.x
        rw [h]
        simp
      · exact List.mem_cons_of_mem _ h

/-- The maximum-right seed-fold is the greatest right edge of a nonempty
node list. -/
theorem maxRightOf_spec (nodes : List Elem) (hne : nodes ≠ []) :
    (∀ e ∈ nodes, e.x + e.w ≤ maxRightOf nodes) ∧
      maxRightOf nodes ∈ nodes.map (fun c => c.x + c.w) := by
  match nodes with
  | [] => exact absurd rfl hne
  | a :: l =>
    constructor
    · intro e he
      rcases List.mem_cons.mp he with he | he
      · subst he
        exact le_foldl_max l (e.x + e.w)
      · exact le_foldl_max_of_mem l (a.x + a.w) e he
    · rcases foldl_max_eq_or_mem l (a.x + a.w) with h | h
      · show List.foldl (fun m c => max m (c.x + c.w)) (a.x + a.w) l ∈
          (a :: l).map (fun c => c.x + c.w)
        rw [h]
        simp
      · exact List.mem_cons_of_mem _ h

/-- C7: aligning on `left` sets every repositioned node's x to the minimum
x of the set; `right` gives every node the maximum right edge while keeping
its own width (and its y and height); `center` puts every node's horizontal
center at the arithmetic mean of the centers; fewer than 2 resolved
elements is a no-op on the scene; and on the concrete triple
`{x:0,w:50}, {x:30,w:20}, {x:10,w:40}` aligning left yields x = 0, 0, 0 and
aligning right yields right edges 50, 50, 50. -/
theorem align_axis_semantics :
    (∀ (nodes : List Elem) (e' : Elem), e' ∈ alignNodes nodes "left" →
      (∀ e ∈ nodes, e'.x ≤ e.x) ∧ e'.x ∈ nodes.map Elem.x) ∧
    (∀ nodes : List Elem,
      List.Forall₂ (fun e e' => e'.x + e'.w = maxRightOf nodes ∧
        e'.w = e.w ∧ e'.y = e.y ∧ e'.h = e.h) nodes (alignNodes nodes "right")) ∧
    (∀ nodes : List Elem, nodes ≠ [] →
      (∀ e ∈ nodes, e.x + e.w ≤ maxRightOf nodes) ∧
        maxRightOf nodes ∈ nodes.map (fun c => c.x + c.w)) ∧
    (∀ nodes : List Elem,
      List.Forall₂ (fun e e' =>
        e'.x + e'.w / 2 = (nodes.map (fun c => c.x + c.w / 2)).sum / (nodes.length : ℚ) ∧
        e'.w = e.w ∧ e'.y = e.y ∧ e'.h = e.h) nodes (alignNodes nodes "center")) ∧
    (∀ (scene : List Elem) (ids : List Nat) (alignment : String),
      (resolveNodes scene ids).length < 2 → handleAlignElements scene ids alignment = scene) ∧
    (handleAlignElements [mkBox 1 NType.SHAPE_WITH_TEXT 0 0 50 50,
      mkBox 2 NType.SHAPE_WITH_TEXT 30 0 20 50,
      mkBox 3 NType.SHAPE_WITH_TEXT 10 0 40 50] [1, 2, 3] "left").map Elem.x = [0, 0, 0] ∧
    (handleAlignElements [mkBox 1 NType.SHAPE_WITH_TEXT 0 0 50 50,
      mkBox 2 NType.SHAPE_WITH_TEXT 30 0 20 50,
      mkBox 3 NType.SHAPE_WITH_TEXT 10 0 40 50] [1, 2, 3] "right").map
      (fun e => e.x + e.w) = [50, 50, 50] := by
  refine ⟨?_, ?_, ?_, ?_, ?_, ?_, ?_⟩
  · intro nodes e' he'
    have hmap : alignNodes nodes "left" = nodes.map (fun e => { e with x := minXof nodes }) :=
      rfl
    rw [hmap] at he'
    rcases List.mem_map.mp he' with ⟨b, hb, hbe⟩
    have hne : nodes ≠ [] := by
      intro hnil
      rw [hnil] at hb
      cases hb
    have hx : e'.x = minXof nodes := by rw [← hbe]
    rw [hx]
    exact ⟨(minXof_spec nodes hne).1, (minXof_spec nodes hne).2⟩
  · intro nodes
    have hmap : alignNodes nodes "right" =
        nodes.map (fun e => { e with x := maxRightOf nodes - e.w }) := rfl
    rw [hmap, List.forall₂_map_right_iff, List.forall₂_same]
    intro e he
    refine ⟨?_, rfl, rfl, rfl⟩
    show maxRightOf nodes - e.w + e.w = maxRightOf nodes
    ring
  · intro nodes hne
    exact maxRightOf_spec nodes hne
  · intro nodes
    have hmap : alignNodes nodes "center" =
        nodes.map (fun e => { e with x := sumCenterX nodes / (nodes.length : ℚ) - e.w / 2 }) :=
      rfl
    rw [hmap, List.forall₂_map_right_iff, List.forall₂_same]
    intro e he
    refine ⟨?_, rfl, rfl, rfl⟩
    show sumCenterX nodes / (nodes.length : ℚ) - e.w / 2 + e.w / 2 =
      (nodes.map (fun c => c.x + c.w / 2)).sum / (nodes.length : ℚ)
    rw [sumCenterX, foldl_add_map_sum nodes 0, zero_add]
    ring
  · intro scene ids alignment hlt
    unfold handleAlignElements
    rw [if_pos hlt]
  · norm_num [handleAlignElements, resolveNodes, findById, List.filterMap, alignNodes,
      minXof, applyPositions, setXY, resizeParentSections, rpsAux, mkBox]
  · norm_num [handleAlignElements, resolveNodes, findById, List.filterMap, alignNodes,
      maxRightOf, applyPositions, setXY, resizeParentSections, rpsAux, mkBox]



theorem ceil_as_floor (a : ℚ) : ⌈a⌉ = -⌊-a⌋ := by
  rw [Int.floor_neg, neg_neg]

theorem truncCheckF_spec (F w h : ℚ) (len : Nat) (sw sh : ℚ) (hF : 0 < F)
    (htr : truncCheckF F w h len = some (sw, sh)) :
    w ≤ sw ∧ h < sh ∧ truncCheckF F sw sh len = none := by
  have hcw : (0 : ℚ) < F * (55 / 100) := by positivity
  have hlh : (0 : ℚ) < F * (14 / 10) := by positivity
  by_cases hlen : len = 0
  · rw [truncCheckF, if_pos hlen] at htr
    cases htr
  simp only [truncCheckF, if_neg hlen] at htr
  set cpl : ℤ := max 1 ⌊(w - 40) / (F * (55 / 100))⌋ with hcpldef
  set ln : ℤ := ⌈(len : ℚ) / (cpl : ℚ)⌉ with hlndef
  set th : ℚ := (ln : ℚ) * (F * (14 / 10)) with hthdef
  have hcpl1 : (1 : ℤ) ≤ cpl := le_max_left _ _
  have hcplQ : (0 : ℚ) < (cpl : ℚ) := by
    have : (0 : ℤ) < cpl := lt_of_lt_of_le one_pos hcpl1
    exact_mod_cast this
  have hceil : th + 40 + 20 ≤ ((⌈th + 40 + 20⌉ : ℤ) : ℚ) := Int.le_ceil _
  split_ifs at htr with htrig hbranch
  · -- triggered, long text: sw = max w C
    rw [Option.some.injEq, Prod.mk.injEq] at htr
    obtain ⟨hsw, hsh⟩ := htr
    subst hsw
    subst hsh
    refine ⟨le_max_left _ _, by linarith, ?_⟩
    -- the re-run
    simp only [truncCheckF, if_neg hlen]
    set C : ℚ := ((⌈(len : ℚ) * (F * (55 / 100)) / 2 + 40⌉ : ℤ) : ℚ) with hCdef
    set SW : ℚ := max w C with hSWdef
    set cpl2 : ℤ := max 1 ⌊(SW - 40) / (F * (55 / 100))⌋ with hcpl2def
    set ln2 : ℤ := ⌈(len : ℚ) / (cpl2 : ℚ)⌉ with hln2def
    have hlen3 : (3 : ℤ) ≤ (len : ℤ) := by linarith
    set m : ℤ := ⌊(len : ℚ) / 2⌋ with hmdef
    have hm1 : (1 : ℤ) ≤ m := by
      rw [hmdef]
      refine Int.le_floor.mpr ?_
      have : (3 : ℚ) ≤ (len : ℚ) := by exact_mod_cast hlen3
      push_cast
      linarith
    have hmQ : (0 : ℚ) < (m : ℚ) := by
      have : (0 : ℤ) < m := lt_of_lt_of_le one_pos hm1
      exact_mod_cast this
    have hlen_le : (len : ℤ) ≤ 2 * m + 1 := by
      have h1 : ((len : ℚ) / 2) < (m : ℚ) + 1 := by
        rw [hmdef]
        exact Int.lt_floor_add_one _
      have h2 : (len : ℚ) < 2 * (m : ℚ) + 2 := by linarith
      have h3 : (len : ℤ) < 2 * m + 2 := by exact_mod_cast h2
      omega
    have hCge : (len : ℚ) * (F * (55 / 100)) / 2 + 40 ≤ C := by
      rw [hCdef]
      exact Int.le_ceil _
    have hSWge : (len : ℚ) * (F * (55 / 100)) / 2 ≤ SW - 40 := by
      have := le_max_right w C
      rw [hSWdef]
      linarith
    have hdivge : (len : ℚ) / 2 ≤ (SW - 40) / (F * (55 / 100)) := by
      rw [div_le_div_iff₀ (by norm_num : (0 : ℚ) < 2) hcw]
      have := hSWge
      nlinarith
    have hmcpl2 : m ≤ cpl2 := by
      rw [hcpl2def]
      refine le_trans ?_ (le_max_right 1 _)
      rw [hmdef]
      exact Int.floor_le_floor hdivge
    have hcpl2Q : (0 : ℚ) < (cpl2 : ℚ) := by
      have : (0 : ℤ) < cpl2 := lt_of_lt_of_le (lt_of_lt_of_le one_pos hm1) hmcpl2
      exact_mod_cast this
    have hln2_3 : ln2 ≤ 3 := by
      rw [hln2def]
      refine Int.ceil_le.mpr ?_
      rw [div_le_iff₀ hcpl2Q]
      have hlenQ : (len : ℚ) ≤ 2 * (m : ℚ) + 1 := by exact_mod_cast hlen_le
      have hmle : (m : ℚ) ≤ (cpl2 : ℚ) := by exact_mod_cast hmcpl2
      have hm1Q : (1 : ℚ) ≤ (m : ℚ) := by exact_mod_cast hm1
      push_cast
      nlinarith
    have hln3 : (3 : ℤ) ≤ ln := by
      have h2 : (2 : ℤ) < ln := by
        rw [hlndef]
        refine Int.lt_ceil.mpr ?_
        rw [lt_div_iff₀ hcplQ]
        have : ((cpl * 2 : ℤ) : ℚ) < ((len : ℤ) : ℚ) := by exact_mod_cast hbranch
        push_cast at this ⊢
        linarith
      omega
    have hth2_le : ((ln2 : ℚ)) * (F * (14 / 10)) ≤ th := by
      rw [hthdef]
      have : ((ln2 : ℚ)) ≤ ((ln : ℚ)) := by
        have : ln2 ≤ ln := le_trans hln2_3 hln3
        exact_mod_cast this
      nlinarith
    split_ifs with hcond
    · exfalso
      linarith
    · rfl
  · -- triggered, short text: sw = w
    rw [Option.some.injEq, Prod.mk.injEq] at htr
    obtain ⟨hsw, hsh⟩ := htr
    subst hsw
    subst hsh
    refine ⟨le_refl w, by linarith, ?_⟩
    simp only [truncCheckF, if_neg hlen]
    rw [← hcpldef, ← hlndef, ← hthdef]
    split_ifs with hcond
    · exfalso
      linarith
    · rfl

/-- C8: a triggered `text_truncated` issue's suggested width never shrinks
the shape, its suggested height strictly grows it, and resizing the shape
to exactly the suggested `(width, height)` and re-running the estimator on
the same text does not trigger the issue again. -/
theorem truncation_suggestion_idempotent (w h fs : ℚ) (len : Nat) (sw sh : ℚ)
    (hfs : 0 ≤ fs) (htr : truncCheck w h fs len = some (sw, sh)) :
    w ≤ sw ∧ h < sh ∧ truncCheck sw sh fs len = none := by
  have hF : 0 < (if fs = 0 then 14 else fs : ℚ) := by
    split_ifs with hz
    · norm_num
    · exact lt_of_le_of_ne hfs (Ne.symm hz)
  simp only [truncCheck] at htr ⊢
  exact truncCheckF_spec _ w h len sw sh hF htr

/-- C8 witness: a 100×60 shape with 100 characters at font size 14 triggers
with suggestion (425, 354), and the suggestion satisfies the theorem. -/
theorem truncation_suggestion_idempotent_witness :
    (100 : ℚ) ≤ 425 ∧ (60 : ℚ) < 354 ∧ truncCheck 425 354 14 100 = none :=
  truncation_suggestion_idempotent 100 60 14 100 425 354 (by norm_num)
    (by norm_num [truncCheck, truncCheckF, ceil_as_floor])


/-- C9 counterexample: a Connector child of a Section that protrudes past
the left edge (`x = -10 < 0`) produces no `section_bleed` issue — the
structural pass skips connector children, so the claim's "every element
whose container is that Section" fails as stated. -/
theorem section_bleed_connector_counterexample :
    childrenOf [mkBox 1 NType.SECTION 0 0 600 400,
      ⟨2, NType.CONNECTOR, some 1, -10, 50, 10, 10, 0, 14, none, none⟩] 1 =
      [⟨2, NType.CONNECTOR, some 1, -10, 50, 10, 10, 0, 14, none, none⟩] ∧
    (-10 : ℚ) < 0 ∧
    validateLayout [mkBox 1 NType.SECTION 0 0 600 400,
      ⟨2, NType.CONNECTOR, some 1, -10, 50, 10, 10, 0, 14, none, none⟩] = [] := by
  refine ⟨?_, by norm_num, ?_⟩
  · norm_num [childrenOf, mkBox, List.filter]
    decide
  · norm_num [validateLayout, boxesOf, topChildren, mkBox, truncIssue, overlapIssues,
      pairsAfter, overlapCheck, tightIssues, tightCheck, pathIssues, pathCheck,
      bleedIssues, structuralBleedIssues, structuralBleedFor, visualBleedFor,
      childrenOf, List.filterMap, List.filter, List.flatMap, truncCheck, truncCheckF]
    decide

/-- C9 amended: for every non-Connector element whose container is the
Section, the structural pass emits a `section_bleed` issue exactly when
`x < 0`, `x + width > sectionWidth`, `y < 40` or `y + height >
sectionHeight`, reporting each violated edge with the exact overflow;
connector children are skipped; every reported child's issue reaches the
pass output; concretely a sticky child at `(-10, 50, 10, 10)` of a 600×400
section is reported as bleeding left by exactly 10. -/
theorem section_bleed_structural_rule :
    (∀ sec c : Elem, c.ntype ≠ NType.CONNECTOR →
      structuralBleedFor sec c =
        (if c.x < 0 ∨ c.x + c.w > sec.w ∨ c.y < 40 ∨ c.y + c.h > sec.h then
          some (Issue.sectionBleed c.id sec.id
            (if c.x < 0 then some (-c.x) else none)
            (if c.x + c.w > sec.w then some (c.x + c.w - sec.w) else none)
            (if c.y < 40 then some (40 - c.y) else none)
            (if c.y + c.h > sec.h then some (c.y + c.h - sec.h) else none))
        else none)) ∧
    (∀ sec c : Elem, c.ntype = NType.CONNECTOR → structuralBleedFor sec c = none) ∧
    (∀ (scene : List Elem) (sec c : Elem) (i : Issue), c ∈ childrenOf scene sec.id →
      structuralBleedFor sec c = some i → i ∈ structuralBleedIssues scene sec) ∧
    validateLayout [mkBox 1 NType.SECTION 0 0 600 400,
      mkChild 2 NType.STICKY 1 (-10) 50 10 10] =
      [Issue.sectionBleed 2 1 (some 10) none none none] := by
  refine ⟨?_, ?_, ?_, ?_⟩
  · intro sec c hnc
    simp only [structuralBleedFor, if_neg hnc]
    by_cases h1 : c.x < 0 <;> by_cases h2 : c.x + c.w > sec.w <;>
      by_cases h3 : c.y < 40 <;> by_cases h4 : c.y + c.h > sec.h <;>
      simp [h1, h2, h3, h4]
  · intro sec c hc
    simp only [structuralBleedFor, if_pos hc]
  · intro scene sec c i hmem hsome
    exact List.mem_filterMap.mpr ⟨c, hmem, hsome⟩
  · norm_num [validateLayout, boxesOf, topChildren, mkBox, mkChild, truncIssue,
      overlapIssues, pairsAfter, overlapCheck, tightIssues, tightCheck, pathIssues,
      pathCheck, bleedIssues, structuralBleedIssues, structuralBleedFor, visualBleedFor,
      childrenOf, List.filterMap, List.filter, List.flatMap, truncCheck, truncCheckF]
    decide

/-- Both components of a pair produced by the pair loop belong to the list. -/
theorem pairsAfter_mem {α : Type} (l : List α) (p : α × α) (hp : p ∈ pairsAfter l) :
    p.1 ∈ l ∧ p.2 ∈ l := by
  induction l with
  | nil => cases hp
  | cons x xs ih =>
    rw [pairsAfter] at hp
    rcases List.mem_append.mp hp with h | h
    · rcases List.mem_map.mp h with ⟨y, hy, hpe⟩
      rw [← hpe]
      exact ⟨List.mem_cons_self _ _, List.mem_cons_of_mem _ hy⟩
    · exact ⟨List.mem_cons_of_mem _ (ih h).1, List.mem_cons_of_mem _ (ih h).2⟩

/-- The ids carried by an overlap issue are the ids of the tested pair. -/
theorem overlapCheck_ids (A B : Elem) (a b : Nat) (ar : ℚ)
    (h : overlapCheck A B = some (Issue.overlap a b ar)) : a = A.id ∧ b = B.id := by
  simp only [overlapCheck] at h
  split_ifs at h with h1 h2 h3
  simp only [Option.some.injEq, Issue.overlap.injEq] at h
  exact ⟨h.1.symm, h.2.1.symm⟩

/-- An issue of the path pass comes from some resolved connector's
`pathIssuesFor` list. -/
theorem pathCheck_sub (scene boxes : List Elem) (cn : Elem) (i : Issue)
    (h : i ∈ pathCheck scene boxes cn) : ∃ s en, i ∈ pathIssuesFor boxes cn s en := by
  unfold pathCheck at h
  split_ifs at h with hc
  · cases hs : cn.startId with
    | none =>
      rw [hs] at h
      exact absurd h (List.not_mem_nil i)
    | some sid =>
      rw [hs] at h
      cases he : cn.endId with
      | none =>
        rw [he] at h
        exact absurd h (List.not_mem_nil i)
      | some eid =>
        rw [he] at h
        have h2 : i ∈ (match findById scene sid, findById scene eid with
          | some s, some en => pathIssuesFor boxes cn s en
          | _, _ => []) := h
        cases hfs : findById scene sid with
        | none =>
          rw [hfs] at h2
          exact absurd h2 (List.not_mem_nil i)
        | some s =>
          rw [hfs] at h2
          cases hfe : findById scene eid with
          | none =>
            rw [hfe] at h2
            exact absurd h2 (List.not_mem_nil i)
          | some en =>
            rw [hfe] at h2
            exact ⟨s, en, h2⟩
  · exact absurd h (List.not_mem_nil i)

/-- C5 counterexample: two fully-coincident shapes that are children of a
Section produce no validation issue at all — in particular no overlap issue
— even though the overlap test applied to the pair itself would report
them; the validator's box list holds top-level children only. -/
theorem validation_scope_counterexample :
    validateLayout [mkBox 1 NType.SECTION 0 0 600 400,
      mkChild 2 NType.SHAPE_WITH_TEXT 1 100 100 50 50,
      mkChild 3 NType.SHAPE_WITH_TEXT 1 100 100 50 50] = [] ∧
    overlapCheck (mkChild 2 NType.SHAPE_WITH_TEXT 1 100 100 50 50)
      (mkChild 3 NType.SHAPE_WITH_TEXT 1 100 100 50 50) =
      some (Issue.overlap 2 3 2500) := by
  constructor
  · norm_num [validateLayout, boxesOf, topChildren, mkBox, mkChild, truncIssue,
      overlapIssues, pairsAfter, overlapCheck, tightIssues, tightCheck, pathIssues,
      pathCheck, bleedIssues, structuralBleedIssues, structuralBleedFor, visualBleedFor,
      childrenOf, List.filterMap, List.filter, List.flatMap, truncCheck, truncCheckF]
    decide
  · norm_num [overlapCheck, mkChild]
    decide

/-- C5 amended: the overlap pass and the obstacle candidates of the path
pass range over the page's top-level non-Connector children only — every
overlap issue's two ids and every obstruction's obstacle id belong to the
collected top-level box list, whose members all have no parent section —
while connectors are collected from the whole scene. -/
theorem validation_scope_top_level_only :
    (∀ (scene : List Elem) (a b : Nat) (ar : ℚ),
      Issue.overlap a b ar ∈ overlapIssues (boxesOf scene) →
      a ∈ (boxesOf scene).map Elem.id ∧ b ∈ (boxesOf scene).map Elem.id) ∧
    (∀ (scene : List Elem) (cn s en o : Nat),
      Issue.connectorThroughShape cn s en o ∈ pathIssues scene (boxesOf scene) →
      o ∈ (boxesOf scene).map Elem.id) ∧
    (∀ (scene : List Elem) (e : Elem), e ∈ boxesOf scene →
      e.parent = none ∧ e.ntype ≠ NType.CONNECTOR) := by
  refine ⟨?_, ?_, ?_⟩
  · intro scene a b ar h
    rcases List.mem_filterMap.mp h with ⟨p, hp, hsome⟩
    have hm := pairsAfter_mem (boxesOf scene) p hp
    have hids := overlapCheck_ids p.1 p.2 a b ar hsome
    exact ⟨hids.1 ▸ List.mem_map_of_mem Elem.id hm.1,
      hids.2 ▸ List.mem_map_of_mem Elem.id hm.2⟩
  · intro scene cn s en o h
    rcases List.mem_flatMap.mp h with ⟨c, hc, hin⟩
    rcases pathCheck_sub scene (boxesOf scene) c _ hin with ⟨se, ee, hfor⟩
    unfold pathIssuesFor at hfor
    rcases List.mem_map.mp hfor with ⟨bx, hbx, hbe⟩
    have hoid : o = bx.id := by
      simpa using congrArg (fun i => match i with
        | Issue.connectorThroughShape _ _ _ ob => ob
        | _ => 0) hbe.symm
    exact hoid ▸ List.mem_map_of_mem Elem.id (List.mem_filter.mp hbx).1
  · intro scene e he
    unfold boxesOf topChildren at he
    have h1 := List.mem_filter.mp he
    have h2 := List.mem_filter.mp h1.1
    constructor
    · simpa using h2.2
    · simpa using h1.2

/-! ## Scene relations for monotonicity and frame claims -/

/-- Pointwise composition of `Forall₂` relations along a middle list. -/
theorem forall2_comp {α : Type} {R S T : α → α → Prop}
    (h : ∀ a b c, R a b → S b c → T a c) :
    ∀ {l1 l2 l3 : List α}, List.Forall₂ R l1 l2 → List.Forall₂ S l2 l3 →
      List.Forall₂ T l1 l3 := by
  intro l1 l2 l3 h12
  induction h12 generalizing l3 with
  | nil =>
    intro h23
    cases h23
    exact List.Forall₂.nil
  | cons hab hrest ih =>
    intro h23
    cases h23 with
    | cons hbc hrest2 => exact List.Forall₂.cons (h _ _ _ hab hbc) (ih hrest2)

/-- One element grew (or kept) its size while keeping its identity. -/
def SizeMono (e e' : Elem) : Prop :=
  e'.id = e.id ∧ e'.ntype = e.ntype ∧ e'.parent = e.parent ∧ e.w ≤ e'.w ∧ e.h ≤ e'.h

/-- Pointwise size monotonicity of a whole scene transformation. -/
def SceneMono (s s' : List Elem) : Prop := List.Forall₂ SizeMono s s'

theorem sizeMono_refl (e : Elem) : SizeMono e e :=
  ⟨rfl, rfl, rfl, le_refl _, le_refl _⟩

theorem sizeMono_trans {a b c : Elem} (h1 : SizeMono a b) (h2 : SizeMono b c) :
    SizeMono a c :=
  ⟨h2.1.trans h1.1, h2.2.1.trans h1.2.1, h2.2.2.1.trans h1.2.2.1,
    h1.2.2.2.1.trans h2.2.2.2.1, h1.2.2.2.2.trans h2.2.2.2.2⟩

theorem sceneMono_refl (s : List Elem) : SceneMono s s :=
  List.forall₂_same.mpr fun e _ => sizeMono_refl e

theorem sceneMono_trans {a b c : List Elem} (h1 : SceneMono a b) (h2 : SceneMono b c) :
    SceneMono a c :=
  @forall2_comp Elem SizeMono SizeMono SizeMono
    (fun _ _ _ ha hb => sizeMono_trans ha hb) a b c h1 h2

theorem sceneMono_map (f : Elem → Elem) (hf : ∀ e, SizeMono e (f e)) (s : List Elem) :
    SceneMono s (s.map f) :=
  List.forall₂_map_right_iff.mpr (List.forall₂_same.mpr fun e _ => hf e)

theorem setXY_mono (sc : List Elem) (m : Elem) : SceneMono sc (setXY sc m) := by
  refine sceneMono_map _ (fun e => ?_) sc
  by_cases he : e.id = m.id
  · rw [if_pos he]
    exact ⟨rfl, rfl, rfl, le_refl _, le_refl _⟩
  · rw [if_neg he]
    exact sizeMono_refl e

theorem applyPositions_mono (moved : List Elem) : ∀ sc : List Elem,
    SceneMono sc (applyPositions sc moved) := by
  induction moved with
  | nil => exact fun sc => sceneMono_refl sc
  | cons m ms ih =>
    intro sc
    exact sceneMono_trans (setXY_mono sc m) (ih (setXY sc m))

theorem autofitSection_mono (sc : List Elem) (pid : Nat) :
    SceneMono sc (autofitSection sc pid) := by
  by_cases hk : childrenOf sc pid = []
  · simp only [autofitSection, if_pos hk]
    exact sceneMono_refl sc
  · simp only [autofitSection, if_neg hk]
    refine sceneMono_map _ (fun e => ?_) sc
    by_cases hp : e.parent = some pid
    · rw [if_pos hp]
      exact ⟨rfl, rfl, rfl, le_refl _, le_refl _⟩
    · rw [if_neg hp]
      by_cases hid : e.id = pid
      · rw [if_pos hid]
        split_ifs <;>
          first
          | exact sizeMono_refl e
          | exact ⟨rfl, rfl, rfl, le_max_right _ _, le_max_right _ _⟩
      · rw [if_neg hid]
        exact sizeMono_refl e

theorem rpsAux_mono (moved : List Elem) : ∀ (sc : List Elem) (visited : List Nat),
    SceneMono sc (rpsAux sc visited moved) := by
  induction moved with
  | nil => exact fun sc visited => sceneMono_refl sc
  | cons n rest ih =>
    intro sc visited
    cases hp : n.parent with
    | none =>
      simp only [rpsAux, hp]
      exact ih sc visited
    | some pid =>
      by_cases hv : pid ∈ visited
      · simp only [rpsAux, hp, if_pos hv]
        exact ih sc visited
      · cases hf : findById sc pid with
        | none =>
          simp only [rpsAux, hp, if_neg hv, hf]
          exact ih sc visited
        | some p =>
          by_cases hs : p.ntype = NType.SECTION
          · simp only [rpsAux, hp, if_neg hv, hf, if_pos hs]
            exact sceneMono_trans (autofitSection_mono sc pid)
              (ih (autofitSection sc pid) (pid :: visited))
          · simp only [rpsAux, hp, if_neg hv, hf, if_neg hs]
            exact ih sc visited

theorem resizeParentSections_mono (sc : List Elem) (moved : List Elem) :
    SceneMono sc (resizeParentSections sc moved) :=
  rpsAux_mono moved sc []

theorem handleAlignElements_mono (sc : List Elem) (ids : List Nat) (alignment : String) :
    SceneMono sc (handleAlignElements sc ids alignment) := by
  simp only [handleAlignElements]
  split_ifs with hn
  · exact sceneMono_refl sc
  · exact sceneMono_trans
      (applyPositions_mono (alignNodes (resolveNodes sc ids) alignment) sc)
      (resizeParentSections_mono _ _)

theorem handleDistributeElements_mono (sc : List Elem) (ids : List Nat)
    (direction : String) (minSpacing : ℚ) :
    SceneMono sc (handleDistributeElements sc ids direction minSpacing) := by
  simp only [handleDistributeElements]
  split_ifs with hn hd
  · exact sceneMono_refl sc
  · cases hs : List.insertionSort (fun a b => a.x ≤ b.x) (resolveNodes sc ids) with
    | nil => exact sceneMono_refl sc
    | cons first restSorted =>
      exact sceneMono_trans (applyPositions_mono _ sc) (resizeParentSections_mono _ _)
  · cases hs : List.insertionSort (fun a b => a.y ≤ b.y) (resolveNodes sc ids) with
    | nil => exact sceneMono_refl sc
    | cons first restSorted =>
      exact sceneMono_trans (applyPositions_mono _ sc) (resizeParentSections_mono _ _)

theorem applyCall_mono (sc : List Elem) (c : Call) : SceneMono sc (applyCall sc c) := by
  cases c with
  | alignEls ids a => exact handleAlignElements_mono sc ids a
  | distributeEls ids d sp => exact handleDistributeElements_mono sc ids d sp

theorem applyCalls_mono (calls : List Call) : ∀ sc : List Elem,
    SceneMono sc (applyCalls sc calls) := by
  induction calls with
  | nil => exact fun sc => sceneMono_refl sc
  | cons c rest ih =>
    intro sc
    exact sceneMono_trans (applyCall_mono sc c) (ih (applyCall sc c))

/-! ## Auto-fit mechanism -/

theorem foldl_minY_le (l : List Elem) (a : ℚ) :
    l.foldl (fun m c => min m c.y) a ≤ a := by
  induction l generalizing a with
  | nil => exact le_refl a
  | cons c t ih => exact le_trans (ih (min a c.y)) (min_le_left _ _)

theorem foldl_minY_le_of_mem (l : List Elem) (a : ℚ) (e : Elem) (h : e ∈ l) :
    l.foldl (fun m c => min m c.y) a ≤ e.y := by
  induction l generalizing a with
  | nil => cases h
  | cons c t ih =>
    rcases List.mem_cons.mp h with he | he
    · subst he
      exact le_trans (foldl_minY_le t (min a e.y)) (min_le_right _ _)
    · exact ih (min a c.y) he

/-- The minimum-y fold bounds every member from below. -/
theorem minYof_le (nodes : List Elem) (e : Elem) (he : e ∈ nodes) :
    minYof nodes ≤ e.y := by
  match nodes with
  | [] => cases he
  | a :: l =>
    rcases List.mem_cons.mp he with h | h
    · subst h
      exact foldl_minY_le l e.y
    · exact foldl_minY_le_of_mem l a.y e h

/-- The minimum-x fold bounds every member from below. -/
theorem minXof_le (nodes : List Elem) (e : Elem) (he : e ∈ nodes) :
    minXof nodes ≤ e.x := by
  match nodes with
  | [] => cases he
  | a :: l =>
    rcases List.mem_cons.mp he with h | h
    · subst h
      exact foldl_min_le l e.x
    · exact foldl_min_le_of_mem l a.x e h

/-- Filtering by parent commutes with a parent-preserving map. -/
theorem childrenOf_map (sc : List Elem) (f : Elem → Elem) (pid : Nat)
    (hf : ∀ e, (f e).parent = e.parent) :
    childrenOf (sc.map f) pid = (childrenOf sc pid).map f := by
  unfold childrenOf
  rw [List.filter_map]
  refine congrArg (List.map f) ?_
  refine List.filter_congr (fun e he => ?_)
  simp [Function.comp, hf e]

theorem foldl_maxR_shift (l : List Elem) (sx sy : ℚ) : ∀ a : ℚ,
    (l.map (fun e => { e with x := e.x + sx, y := e.y + sy })).foldl
      (fun m c => max m (c.x + c.w)) (a + sx) =
      l.foldl (fun m c => max m (c.x + c.w)) a + sx := by
  induction l with
  | nil => intro a; rfl
  | cons c t ih =>
    intro a
    simp only [List.map_cons, List.foldl_cons]
    have h2 : c.x + sx + c.w = c.x + c.w + sx := by ring
    rw [h2, max_add_add_right, ih (max a (c.x + c.w))]

theorem foldl_maxB_shift (l : List Elem) (sx sy : ℚ) : ∀ a : ℚ,
    (l.map (fun e => { e with x := e.x + sx, y := e.y + sy })).foldl
      (fun m c => max m (c.y + c.h)) (a + sy) =
      l.foldl (fun m c => max m (c.y + c.h)) a + sy := by
  induction l with
  | nil => intro a; rfl
  | cons c t ih =>
    intro a
    simp only [List.map_cons, List.foldl_cons]
    have h2 : c.y + sy + c.h = c.y + c.h + sy := by ring
    rw [h2, max_add_add_right, ih (max a (c.y + c.h))]

/-- Shifting every node shifts the maximum right edge. -/
theorem maxRightOf_shift (l : List Elem) (hne : l ≠ []) (sx sy : ℚ) :
    maxRightOf (l.map (fun e => { e with x := e.x + sx, y := e.y + sy })) =
      maxRightOf l + sx := by
  cases l with
  | nil => exact absurd rfl hne
  | cons k ks =>
    simp only [List.map_cons, maxRightOf]
    have h2 : k.x + sx + k.w = k.x + k.w + sx := by ring
    rw [h2, foldl_maxR_shift ks sx sy (k.x + k.w)]

/-- Shifting every node shifts the maximum bottom edge. -/
theorem maxBottomOf_shift (l : List Elem) (hne : l ≠ []) (sx sy : ℚ) :
    maxBottomOf (l.map (fun e => { e with x := e.x + sx, y := e.y + sy })) =
      maxBottomOf l + sy := by
  cases l with
  | nil => exact absurd rfl hne
  | cons k ks =>
    simp only [List.map_cons, maxBottomOf]
    have h2 : k.y + sy + k.h = k.y + k.h + sy := by ring
    rw [h2, foldl_maxB_shift ks sx sy (k.y + k.h)]

/-- After a non-trivial auto-fit, the section's children are exactly the old
children shifted by the computed deficits. -/
theorem autofit_children_eq (sc : List Elem) (pid : Nat) (hk : childrenOf sc pid ≠ []) :
    childrenOf (autofitSection sc pid) pid =
      (childrenOf sc pid).map (fun e => { e with
        x := e.x + (if minXof (childrenOf sc pid) < 40
          then 40 - minXof (childrenOf sc pid) else 0),
        y := e.y + (if minYof (childrenOf sc pid) < 40
          then 40 - minYof (childrenOf sc pid) else 0) }) := by
  simp only [autofitSection, if_neg hk]
  rw [childrenOf_map]
  · refine List.map_congr_left (fun e he => ?_)
    have hp : e.parent = some pid := by
      have := (List.mem_filter.mp he).2
      simpa using this
    rw [if_pos hp]
  · intro e
    by_cases h1 : e.parent = some pid
    · rw [if_pos h1]
    · rw [if_neg h1]
      by_cases h2 : e.id = pid
      · rw [if_pos h2]
        split_ifs <;> rfl
      · rw [if_neg h2]

/-- After auto-fit every child of the section sits at or below the 40-unit
margin on both axes. -/
theorem autofit_children_margin (sc : List Elem) (pid : Nat)
    (hk : childrenOf sc pid ≠ []) :
    ∀ k ∈ childrenOf (autofitSection sc pid) pid, 40 ≤ k.x ∧ 40 ≤ k.y := by
  rw [autofit_children_eq sc pid hk]
  intro k hkmem
  rcases List.mem_map.mp hkmem with ⟨k0, hk0, hke⟩
  have hminx := minXof_le (childrenOf sc pid) k0 hk0
  have hminy := minYof_le (childrenOf sc pid) k0 hk0
  subst hke
  constructor <;> dsimp only <;> split_ifs <;> linarith

/-- Auto-fit sets the section's size on each axis to
`max(maxChildEdge + 40, currentSize)`, the child edges taken after the
shift. -/
theorem autofit_section_size (sc : List Elem) (pid : Nat)
    (hk : childrenOf sc pid ≠ []) :
    List.Forall₂ (fun e e' => e.id = pid → ¬e.parent = some pid →
      e'.w = max (maxRightOf (childrenOf (autofitSection sc pid) pid) + 40) e.w ∧
      e'.h = max (maxBottomOf (childrenOf (autofitSection sc pid) pid) + 40) e.h)
      sc (autofitSection sc pid) := by
  have hch := autofit_children_eq sc pid hk
  have hmr : maxRightOf (childrenOf (autofitSection sc pid) pid) =
      maxRightOf (childrenOf sc pid) +
        (if minXof (childrenOf sc pid) < 40 then 40 - minXof (childrenOf sc pid) else 0) := by
    rw [hch]
    exact maxRightOf_shift _ hk _ _
  have hmb : maxBottomOf (childrenOf (autofitSection sc pid) pid) =
      maxBottomOf (childrenOf sc pid) +
        (if minYof (childrenOf sc pid) < 40 then 40 - minYof (childrenOf sc pid) else 0) := by
    rw [hch]
    exact maxBottomOf_shift _ hk _ _
  rw [hmr, hmb]
  simp only [autofitSection, if_neg hk]
  set SX : ℚ := if minXof (childrenOf sc pid) < 40 then 40 - minXof (childrenOf sc pid) else 0
    with hSX
  set SY : ℚ := if minYof (childrenOf sc pid) < 40 then 40 - minYof (childrenOf sc pid) else 0
    with hSY
  rw [List.forall₂_map_right_iff]
  refine List.forall₂_same.mpr (fun e he => ?_)
  intro hid hpar
  rw [if_neg hpar, if_pos hid]
  by_cases hg : maxRightOf (childrenOf sc pid) + SX + 40 > e.w ∨
      maxBottomOf (childrenOf sc pid) + SY + 40 > e.h
  · rw [if_pos hg]
    exact ⟨rfl, rfl⟩
  · rw [if_neg hg]
    push_neg at hg
    exact ⟨(max_eq_right hg.1).symm, (max_eq_right hg.2).symm⟩

/-- C4: auto-fit first shifts a touched Section's children so every child
sits at or below the 40-unit margin, then sets the section's size on each
axis to the maximum of its current size and the (shifted) maximum child
edge plus 40; consequently over any align/distribute call — and any
sequence of such calls — every element keeps its identity and its width and
height never decrease, so a Section's `(width, height)` is non-decreasing. -/
theorem section_autofit_never_shrinks :
    (∀ (sc : List Elem) (pid : Nat), childrenOf sc pid ≠ [] →
      ∀ k ∈ childrenOf (autofitSection sc pid) pid, 40 ≤ k.x ∧ 40 ≤ k.y) ∧
    (∀ (sc : List Elem) (pid : Nat), childrenOf sc pid ≠ [] →
      List.Forall₂ (fun e e' => e.id = pid → ¬e.parent = some pid →
        e'.w = max (maxRightOf (childrenOf (autofitSection sc pid) pid) + 40) e.w ∧
        e'.h = max (maxBottomOf (childrenOf (autofitSection sc pid) pid) + 40) e.h)
        sc (autofitSection sc pid)) ∧
    (∀ (sc : List Elem) (c : Call), SceneMono sc (applyCall sc c)) ∧
    (∀ (calls : List Call) (sc : List Elem), SceneMono sc (applyCalls sc calls)) :=
  ⟨autofit_children_margin, autofit_section_size,
    fun sc c => applyCall_mono sc c, fun calls sc => applyCalls_mono calls sc⟩

/-! ## Sequential position writes, functionally -/

/-- The last (winning) write among the sequential position assignments for
a given id. -/
def lastAssign : List Elem → Nat → Option Elem
  | [], _ => none
  | m :: ms, i =>
    match lastAssign ms i with
    | some mPrime => some mPrime
    | none => if m.id = i then some m else none

theorem lastAssign_mem : ∀ {moved : List Elem} {i : Nat} {m : Elem},
    lastAssign moved i = some m → m ∈ moved ∧ m.id = i := by
  intro moved
  induction moved with
  | nil => intro i m h; cases h
  | cons a ms ih =>
    intro i m h
    rw [lastAssign] at h
    cases hms : lastAssign ms i with
    | some mp =>
      rw [hms] at h
      rcases Option.some.injEq _ _ ▸ h with rfl
      have := ih hms
      exact ⟨List.mem_cons_of_mem _ this.1, this.2⟩
    | none =>
      rw [hms] at h
      split_ifs at h with ha
      rcases Option.some.injEq _ _ ▸ h with rfl
      exact ⟨List.mem_cons_self _ _, ha⟩

theorem lastAssign_none : ∀ {moved : List Elem} {i : Nat},
    (∀ m ∈ moved, m.id ≠ i) → lastAssign moved i = none := by
  intro moved
  induction moved with
  | nil => intro i _; rfl
  | cons a ms ih =>
    intro i h
    rw [lastAssign, ih (fun m hm => h m (List.mem_cons_of_mem _ hm))]
    rw [if_neg (h a (List.mem_cons_self _ _))]

/-- Sequentially writing back the repositioned nodes equals, pointwise, the
last assignment for each element's id. -/
theorem applyPositions_spec (moved : List Elem) : ∀ scene : List Elem,
    List.Forall₂ (fun e e' => e' = (match lastAssign moved e.id with
      | some m => { e with x := m.x, y := m.y }
      | none => e)) scene (applyPositions scene moved) := by
  induction moved with
  | nil =>
    intro scene
    exact List.forall₂_same.mpr (fun e _ => rfl)
  | cons m ms ih =>
    intro scene
    have happ : applyPositions scene (m :: ms) = applyPositions (setXY scene m) ms := rfl
    rw [happ]
    have h1 := ih (setXY scene m)
    rw [setXY] at h1
    have h2 := List.forall₂_map_left_iff.mp h1
    refine h2.imp ?_
    intro e e' he'
    have hid : (if e.id = m.id then { e with x := m.x, y := m.y } else e).id = e.id := by
      split_ifs <;> rfl
    rw [hid] at he'
    cases hms : lastAssign ms e.id with
    | some mp =>
      rw [hms] at he'
      have hla : lastAssign (m :: ms) e.id = some mp := by rw [lastAssign, hms]
      rw [hla, he']
      by_cases hem : e.id = m.id
      · rw [if_pos hem]
      · rw [if_neg hem]
    | none =>
      rw [hms] at he'
      have hla : lastAssign (m :: ms) e.id = (if m.id = e.id then some m else none) := by
        rw [lastAssign, hms]
      rw [hla]
      by_cases hem : e.id = m.id
      · rw [if_pos hem] at he'
        rw [if_pos hem.symm]
        exact he'
      · rw [if_neg hem] at he'
        rw [if_neg (fun hc => hem hc.symm)]
        exact he'

/-- Frame facts of the write-back phase: identity fields and sizes are
preserved; untouched ids are fully unchanged; a coordinate whose assigned
values agree with the element's is unchanged. -/
theorem applyPositions_frame (moved scene : List Elem) :
    List.Forall₂ (fun e e' =>
      e'.id = e.id ∧ e'.ntype = e.ntype ∧ e'.parent = e.parent ∧
      e'.w = e.w ∧ e'.h = e.h ∧
      (e.id ∉ moved.map Elem.id → e' = e) ∧
      ((∀ m ∈ moved, m.id = e.id → m.y = e.y) → e'.y = e.y) ∧
      ((∀ m ∈ moved, m.id = e.id → m.x = e.x) → e'.x = e.x))
      scene (applyPositions scene moved) := by
  refine (applyPositions_spec moved scene).imp ?_
  intro e e' he'
  cases hms : lastAssign moved e.id with
  | none =>
    rw [hms] at he'
    subst he'
    exact ⟨rfl, rfl, rfl, rfl, rfl, fun _ => rfl, fun _ => rfl, fun _ => rfl⟩
  | some m =>
    rw [hms] at he'
    subst he'
    have hm := lastAssign_mem hms
    refine ⟨rfl, rfl, rfl, rfl, rfl, ?_, ?_, ?_⟩
    · intro hnot
      exact absurd (hm.2 ▸ List.mem_map_of_mem Elem.id hm.1) hnot
    · intro hy
      exact hy m hm.1 hm.2
    · intro hx
      exact hx m hm.1 hm.2

/-! ## Uniform per-section shifts of the auto-fit fold -/

/-- The shift a parent-section assignment list applies to an element with
the given parent reference. -/
def shiftLookup (S : List (Nat × ℚ × ℚ)) (p : Option Nat) : ℚ × ℚ :=
  match p with
  | none => (0, 0)
  | some pid =>
    match S.find? (fun q => decide (q.1 = pid)) with
    | some q => q.2
    | none => (0, 0)

/-- The auto-fit fold's effect: identities preserved, every element moved by
exactly its parent section's recorded shift, sizes non-decreasing and
unchanged off the recorded sections. -/
def AutofitSpec (S : List (Nat × ℚ × ℚ)) (s sPrime : List Elem) : Prop :=
  List.Forall₂ (fun e e' =>
    e'.id = e.id ∧ e'.ntype = e.ntype ∧ e'.parent = e.parent ∧
    e'.x = e.x + (shiftLookup S e.parent).1 ∧
    e'.y = e.y + (shiftLookup S e.parent).2 ∧
    e.w ≤ e'.w ∧ e.h ≤ e'.h ∧
    (e.id ∉ S.map Prod.fst → e'.w = e.w ∧ e'.h = e.h)) s sPrime

theorem shiftLookup_not_mem (S : List (Nat × ℚ × ℚ)) (p : Option Nat)
    (h : ∀ pid, p = some pid → pid ∉ S.map Prod.fst) : shiftLookup S p = (0, 0) := by
  cases p with
  | none => rfl
  | some pid =>
    have hfind : S.find? (fun q => decide (q.1 = pid)) = none := by
      rw [List.find?_eq_none]
      intro q hq hd
      have : q.1 = pid := by simpa using hd
      exact h pid rfl (this ▸ List.mem_map_of_mem Prod.fst hq)
    rw [shiftLookup, hfind]

theorem shiftLookup_some (S : List (Nat × ℚ × ℚ)) (pid : Nat) :
    shiftLookup S (some pid) =
      match S.find? (fun q => decide (q.1 = pid)) with
      | some q => q.2
      | none => (0, 0) := rfl

theorem shiftLookup_append (S1 S2 : List (Nat × ℚ × ℚ)) (p : Option Nat)
    (hdisj : ∀ q ∈ S1.map Prod.fst, q ∉ S2.map Prod.fst) :
    shiftLookup (S1 ++ S2) p =
      ((shiftLookup S1 p).1 + (shiftLookup S2 p).1,
        (shiftLookup S1 p).2 + (shiftLookup S2 p).2) := by
  cases p with
  | none => simp [shiftLookup]
  | some pid =>
    induction S1 with
    | nil => simp [shiftLookup]
    | cons q S1t ih =>
      by_cases hq : q.1 = pid
      · have h2 : S2.find? (fun r => decide (r.1 = pid)) = none := by
          rw [List.find?_eq_none]
          intro r hr hd
          have hre : r.1 = pid := by simpa using hd
          refine hdisj q.1 (by simp) ?_
          have hqr : q.1 = r.1 := hq.trans hre.symm
          rw [hqr]
          exact List.mem_map_of_mem Prod.fst hr
        have hfq : (q :: (S1t ++ S2)).find? (fun r => decide (r.1 = pid)) = some q :=
          List.find?_cons_of_pos _ (by simp [hq])
        have hfq1 : (q :: S1t).find? (fun r => decide (r.1 = pid)) = some q :=
          List.find?_cons_of_pos _ (by simp [hq])
        simp only [shiftLookup_some, List.cons_append, hfq, hfq1, h2]
        simp
      · have hfq : (q :: (S1t ++ S2)).find? (fun r => decide (r.1 = pid)) =
            (S1t ++ S2).find? (fun r => decide (r.1 = pid)) :=
          List.find?_cons_of_neg _ (by simp [hq])
        have hfq1 : (q :: S1t).find? (fun r => decide (r.1 = pid)) =
            S1t.find? (fun r => decide (r.1 = pid)) :=
          List.find?_cons_of_neg _ (by simp [hq])
        have hih := ih (fun r hr => hdisj r (List.mem_cons_of_mem _ hr))
        simp only [shiftLookup_some, List.cons_append, hfq, hfq1] at hih ⊢
        exact hih

theorem autofitSpec_comp {S1 S2 : List (Nat × ℚ × ℚ)} {a b c : List Elem}
    (hdisj : ∀ q ∈ S1.map Prod.fst, q ∉ S2.map Prod.fst)
    (h1 : AutofitSpec S1 a b) (h2 : AutofitSpec S2 b c) :
    AutofitSpec (S1 ++ S2) a c := by
  refine forall2_comp (fun e e1 e2 he1 he2 => ?_) h1 h2
  obtain ⟨hid1, hty1, hpar1, hx1, hy1, hw1, hh1, hu1⟩ := he1
  obtain ⟨hid2, hty2, hpar2, hx2, hy2, hw2, hh2, hu2⟩ := he2
  have hsl := shiftLookup_append S1 S2 e.parent hdisj
  refine ⟨hid2.trans hid1, hty2.trans hty1, hpar2.trans hpar1, ?_, ?_,
    hw1.trans hw2, hh1.trans hh2, ?_⟩
  · rw [hx2, hpar1, hx1, hsl]
    ring
  · rw [hy2, hpar1, hy1, hsl]
    ring
  · intro hnot
    rw [List.map_append, List.mem_append] at hnot
    push_neg at hnot
    have hn1 : e.id ∉ S1.map Prod.fst := hnot.1
    have hn2 : e1.id ∉ S2.map Prod.fst := hid1 ▸ hnot.2
    have u1 := hu1 hn1
    have u2 := hu2 hn2
    exact ⟨u2.1.trans u1.1, u2.2.trans u1.2⟩

theorem shiftLookup_single (pid : Nat) (d : ℚ × ℚ) (p : Option Nat) :
    shiftLookup [(pid, d)] p = if p = some pid then d else (0, 0) := by
  cases p with
  | none => simp [shiftLookup]
  | some r =>
    by_cases h : pid = r
    · subst h
      rw [shiftLookup_some, List.find?_cons_of_pos _ (by simp)]
      simp
    · rw [shiftLookup_some, List.find?_cons_of_neg _ (by simp [h])]
      simp [List.find?, Ne.symm h]

/-- Auto-fitting one section realises a uniform per-section shift: there are
non-negative `dx, dy` such that the children of `pid` move by exactly
`(dx, dy)`, only the section `pid` itself may change size, and it only
grows. -/
theorem autofitSection_spec (sc : List Elem) (pid : Nat) :
    ∃ dx dy : ℚ, 0 ≤ dx ∧ 0 ≤ dy ∧
      AutofitSpec [(pid, dx, dy)] sc (autofitSection sc pid) := by
  by_cases hk : childrenOf sc pid = []
  · refine ⟨0, 0, le_refl 0, le_refl 0, ?_⟩
    have hsc : autofitSection sc pid = sc := by
      simp only [autofitSection]
      rw [if_pos hk]
    rw [hsc, AutofitSpec, List.forall₂_same]
    intro e _
    refine ⟨rfl, rfl, rfl, ?_, ?_, le_refl _, le_refl _, fun _ => ⟨rfl, rfl⟩⟩
    · rw [shiftLookup_single]
      split <;> simp
    · rw [shiftLookup_single]
      split <;> simp
  · simp only [autofitSection]
    rw [if_neg hk]
    set minX := minXof (childrenOf sc pid) with hminX
    set minY := minYof (childrenOf sc pid) with hminY
    set dx : ℚ := if minX < 40 then 40 - minX else 0 with hdx
    set dy : ℚ := if minY < 40 then 40 - minY else 0 with hdy
    refine ⟨dx, dy, ?_, ?_, ?_⟩
    · rw [hdx]
      split <;> [linarith; exact le_refl 0]
    · rw [hdy]
      split <;> [linarith; exact le_refl 0]
    · rw [AutofitSpec, List.forall₂_map_right_iff, List.forall₂_same]
      intro e _
      by_cases hp : e.parent = some pid
      · rw [if_pos hp]
        refine ⟨rfl, rfl, rfl, ?_, ?_, le_refl _, le_refl _, fun _ => ⟨rfl, rfl⟩⟩
        · rw [hp, shiftLookup_single, if_pos rfl]
        · rw [hp, shiftLookup_single, if_pos rfl]
      · rw [if_neg hp]
        have hsl : shiftLookup [(pid, dx, dy)] e.parent = (0, 0) := by
          rw [shiftLookup_single, if_neg hp]
        by_cases hid : e.id = pid
        · rw [if_pos hid]
          split
          · exact ⟨rfl, rfl, rfl, by rw [hsl]; ring, by rw [hsl]; ring,
              le_max_right _ _, le_max_right _ _,
              fun hc => absurd (by simp [hid]) hc⟩
          · exact ⟨rfl, rfl, rfl, by rw [hsl]; ring, by rw [hsl]; ring,
              le_refl _, le_refl _, fun _ => ⟨rfl, rfl⟩⟩
        · rw [if_neg hid]
          exact ⟨rfl, rfl, rfl, by rw [hsl]; ring, by rw [hsl]; ring,
            le_refl _, le_refl _, fun _ => ⟨rfl, rfl⟩⟩

theorem autofitSpec_findById {S : List (Nat × ℚ × ℚ)} {sc scPrime : List Elem}
    (h : AutofitSpec S sc scPrime) (i : Nat) :
    (findById sc i = none ∧ findById scPrime i = none) ∨
    (∃ e ePrime, findById sc i = some e ∧ findById scPrime i = some ePrime ∧
      ePrime.id = e.id ∧ ePrime.ntype = e.ntype ∧ ePrime.parent = e.parent) := by
  induction h with
  | nil => exact Or.inl ⟨rfl, rfl⟩
  | cons hr _ ih =>
    rename_i e ePrime l lPrime _
    obtain ⟨hid, hty, hpar, _⟩ := hr
    by_cases hi : e.id = i
    · refine Or.inr ⟨e, ePrime, ?_, ?_, hid, hty, hpar⟩
      · rw [findById, if_pos hi]
      · rw [findById, if_pos (hid.trans hi)]
    · have hi2 : ¬ ePrime.id = i := fun hc => hi (hid ▸ hc)
      rw [show findById (e :: l) i = findById l i by rw [findById, if_neg hi],
        show findById (ePrime :: lPrime) i = findById lPrime i by
          rw [findById, if_neg hi2]]
      exact ih

theorem shiftLookup_nil (p : Option Nat) : shiftLookup [] p = (0, 0) := by
  cases p <;> rfl

theorem autofitSpec_nil (sc : List Elem) : AutofitSpec [] sc sc := by
  rw [AutofitSpec, List.forall₂_same]
  intro e _
  refine ⟨rfl, rfl, rfl, ?_, ?_, le_refl _, le_refl _, fun _ => ⟨rfl, rfl⟩⟩
  · rw [shiftLookup_nil]
    ring
  · rw [shiftLookup_nil]
    ring

/-- The auto-fit loop of `resizeParentSections` realises a finite set of
per-section uniform shifts: each recorded section is unvisited, is the parent
of some moved node, is a Section in the starting scene, and its shift is
non-negative; the whole scene transformation is `AutofitSpec` for that set. -/
theorem rpsAux_spec (moved : List Elem) : ∀ (sc : List Elem) (visited : List Nat),
    ∃ S : List (Nat × ℚ × ℚ),
      (∀ q ∈ S, 0 ≤ q.2.1 ∧ 0 ≤ q.2.2) ∧
      (S.map Prod.fst).Nodup ∧
      (∀ p ∈ S.map Prod.fst, p ∉ visited ∧
        (∃ n ∈ moved, n.parent = some p) ∧
        ∃ pe, findById sc p = some pe ∧ pe.ntype = NType.SECTION) ∧
      AutofitSpec S sc (rpsAux sc visited moved) := by
  induction moved with
  | nil =>
    intro sc visited
    exact ⟨[], by simp, by simp, by simp, autofitSpec_nil sc⟩
  | cons n rest ih =>
    intro sc visited
    cases hp : n.parent with
    | none =>
      simp only [rpsAux, hp]
      obtain ⟨S, h1, h2, h3, h4⟩ := ih sc visited
      exact ⟨S, h1, h2, fun p hpS => ⟨(h3 p hpS).1,
        (h3 p hpS).2.1.imp (fun m hm => ⟨List.mem_cons_of_mem n hm.1, hm.2⟩),
        (h3 p hpS).2.2⟩, h4⟩
    | some pid =>
      by_cases hv : pid ∈ visited
      · simp only [rpsAux, hp, if_pos hv]
        obtain ⟨S, h1, h2, h3, h4⟩ := ih sc visited
        exact ⟨S, h1, h2, fun p hpS => ⟨(h3 p hpS).1,
          (h3 p hpS).2.1.imp (fun m hm => ⟨List.mem_cons_of_mem n hm.1, hm.2⟩),
          (h3 p hpS).2.2⟩, h4⟩
      · cases hf : findById sc pid with
        | none =>
          simp only [rpsAux, hp, if_neg hv, hf]
          obtain ⟨S, h1, h2, h3, h4⟩ := ih sc visited
          exact ⟨S, h1, h2, fun p hpS => ⟨(h3 p hpS).1,
            (h3 p hpS).2.1.imp (fun m hm => ⟨List.mem_cons_of_mem n hm.1, hm.2⟩),
            (h3 p hpS).2.2⟩, h4⟩
        | some pe =>
          by_cases hs : pe.ntype = NType.SECTION
          · simp only [rpsAux, hp, if_neg hv, hf, if_pos hs]
            obtain ⟨dx, dy, hdx0, hdy0, hA⟩ := autofitSection_spec sc pid
            obtain ⟨S, h1, h2, h3, h4⟩ := ih (autofitSection sc pid) (pid :: visited)
            have hpidS : pid ∉ S.map Prod.fst := fun hc =>
              (h3 pid hc).1 (List.mem_cons_self pid visited)
            have hdisj : ∀ q ∈ ([(pid, dx, dy)] : List (Nat × ℚ × ℚ)).map Prod.fst,
                q ∉ S.map Prod.fst := by
              intro q hq
              have : q = pid := by simpa using hq
              rw [this]
              exact hpidS
            refine ⟨(pid, dx, dy) :: S, ?_, ?_, ?_, ?_⟩
            · intro q hq
              rcases List.mem_cons.mp hq with h | h
              · rw [h]
                exact ⟨hdx0, hdy0⟩
              · exact h1 q h
            · rw [List.map_cons, List.nodup_cons]
              exact ⟨hpidS, h2⟩
            · intro p hpS
              rw [List.map_cons, List.mem_cons] at hpS
              rcases hpS with h | h
              · subst h
                exact ⟨hv, ⟨n, List.mem_cons_self n rest, hp⟩, pe, hf, hs⟩
              · obtain ⟨hnv, hmv, qe, hqe, hqs⟩ := h3 p h
                refine ⟨fun hc => hnv (List.mem_cons_of_mem pid hc),
                  hmv.imp (fun m hm => ⟨List.mem_cons_of_mem n hm.1, hm.2⟩), ?_⟩
                rcases autofitSpec_findById hA p with ⟨_, hnone⟩ | ⟨e, ePrime, he, hePrime, _, hty, _⟩
                · rw [hqe] at hnone
                  exact absurd hnone (by simp)
                · rw [hqe] at hePrime
                  have : ePrime = qe := by
                    injection hePrime with hqp
                    exact hqp.symm
                  exact ⟨e, he, by rw [← hty, this, hqs]⟩
            · exact autofitSpec_comp hdisj hA h4
          · simp only [rpsAux, hp, if_neg hv, hf, if_neg hs]
            obtain ⟨S, h1, h2, h3, h4⟩ := ih sc visited
            exact ⟨S, h1, h2, fun p hpS => ⟨(h3 p hpS).1,
              (h3 p hpS).2.1.imp (fun m hm => ⟨List.mem_cons_of_mem n hm.1, hm.2⟩),
              (h3 p hpS).2.2⟩, h4⟩

/-! ## Frame effects of align and distribute -/

theorem findById_some_mem {sc : List Elem} {i : Nat} {e : Elem}
    (h : findById sc i = some e) : e ∈ sc := by
  induction sc with
  | nil => simp [findById] at h
  | cons a t ih =>
    rw [findById] at h
    by_cases ha : a.id = i
    · rw [if_pos ha] at h
      injection h with h
      exact h ▸ List.mem_cons_self a t
    · rw [if_neg ha] at h
      exact List.mem_cons_of_mem a (ih h)

theorem resolveNodes_mem {scene : List Elem} {ids : List Nat} {n : Elem}
    (h : n ∈ resolveNodes scene ids) : n ∈ scene := by
  rw [resolveNodes, List.mem_filterMap] at h
  obtain ⟨i, _, hf⟩ := h
  exact findById_some_mem hf

theorem forall2_mem_left {α β : Type} {R : α → β → Prop} {l : List α} {lPrime : List β}
    (h : List.Forall₂ R l lPrime) :
    List.Forall₂ (fun a b => a ∈ l ∧ R a b) l lPrime := by
  induction h with
  | nil => exact List.Forall₂.nil
  | cons hr _ ih =>
    exact List.Forall₂.cons ⟨List.mem_cons_self _ _, hr⟩
      (ih.imp (fun a b hab => ⟨List.mem_cons_of_mem _ hab.1, hab.2⟩))

theorem findById_forall2 {R : Elem → Elem → Prop} {sc scPrime : List Elem}
    (hR : ∀ e ePrime, R e ePrime → ePrime.id = e.id)
    (h : List.Forall₂ R sc scPrime) (i : Nat) :
    (findById sc i = none ∧ findById scPrime i = none) ∨
    (∃ e ePrime, findById sc i = some e ∧ findById scPrime i = some ePrime ∧ R e ePrime) := by
  induction h with
  | nil => exact Or.inl ⟨rfl, rfl⟩
  | cons hr _ ih =>
    rename_i e ePrime l lPrime _
    have hid := hR e ePrime hr
    by_cases hi : e.id = i
    · refine Or.inr ⟨e, ePrime, ?_, ?_, hr⟩
      · rw [findById, if_pos hi]
      · rw [findById, if_pos (hid.trans hi)]
    · have hi2 : ¬ ePrime.id = i := fun hc => hi (hid ▸ hc)
      rw [show findById (e :: l) i = findById l i by rw [findById, if_neg hi],
        show findById (ePrime :: lPrime) i = findById lPrime i by
          rw [findById, if_neg hi2]]
      exact ih

theorem alignNodes_keeps_y (nodes : List Elem) (a : String)
    (ha : a ≠ "top" ∧ a ≠ "bottom" ∧ a ≠ "middle") :
    ∀ m ∈ alignNodes nodes a, ∃ n ∈ nodes, m.id = n.id ∧ m.y = n.y := by
  intro m hm
  unfold alignNodes at hm
  split at hm
  · obtain ⟨n, hn, he⟩ := List.mem_map.mp hm
    exact ⟨n, hn, by rw [← he], by rw [← he]⟩
  · obtain ⟨n, hn, he⟩ := List.mem_map.mp hm
    exact ⟨n, hn, by rw [← he], by rw [← he]⟩
  · obtain ⟨n, hn, he⟩ := List.mem_map.mp hm
    exact ⟨n, hn, by rw [← he], by rw [← he]⟩
  · exact absurd rfl ha.1
  · exact absurd rfl ha.2.1
  · exact absurd rfl ha.2.2
  · exact ⟨m, hm, rfl, rfl⟩

theorem alignNodes_keeps_x (nodes : List Elem) (a : String)
    (ha : a ≠ "left" ∧ a ≠ "right" ∧ a ≠ "center") :
    ∀ m ∈ alignNodes nodes a, ∃ n ∈ nodes, m.id = n.id ∧ m.x = n.x := by
  intro m hm
  unfold alignNodes at hm
  split at hm
  · exact absurd rfl ha.1
  · exact absurd rfl ha.2.1
  · exact absurd rfl ha.2.2
  · obtain ⟨n, hn, he⟩ := List.mem_map.mp hm
    exact ⟨n, hn, by rw [← he], by rw [← he]⟩
  · obtain ⟨n, hn, he⟩ := List.mem_map.mp hm
    exact ⟨n, hn, by rw [← he], by rw [← he]⟩
  · obtain ⟨n, hn, he⟩ := List.mem_map.mp hm
    exact ⟨n, hn, by rw [← he], by rw [← he]⟩
  · exact ⟨m, hm, rfl, rfl⟩

theorem alignNodes_ids (nodes : List Elem) (a : String) :
    ∀ m ∈ alignNodes nodes a, ∃ n ∈ nodes, m.id = n.id := by
  intro m hm
  unfold alignNodes at hm
  split at hm
  all_goals first
  | exact ⟨m, hm, rfl⟩
  | · obtain ⟨n, hn, he⟩ := List.mem_map.mp hm
      exact ⟨n, hn, by rw [← he]⟩

theorem placeXAux_keeps_y (gap : ℚ) : ∀ (cur : ℚ) (l : List Elem),
    ∀ m ∈ placeXAux gap cur l, ∃ n ∈ l, m.id = n.id ∧ m.y = n.y := by
  intro cur l
  induction l generalizing cur with
  | nil => intro m hm; simp [placeXAux] at hm
  | cons e t ih =>
    intro m hm
    rw [placeXAux] at hm
    rcases List.mem_cons.mp hm with h | h
    · exact ⟨e, List.mem_cons_self e t, by rw [h], by rw [h]⟩
    · obtain ⟨n, hn, hp⟩ := ih _ m h
      exact ⟨n, List.mem_cons_of_mem e hn, hp⟩

theorem placeYAux_keeps_x (gap : ℚ) : ∀ (cur : ℚ) (l : List Elem),
    ∀ m ∈ placeYAux gap cur l, ∃ n ∈ l, m.id = n.id ∧ m.x = n.x := by
  intro cur l
  induction l generalizing cur with
  | nil => intro m hm; simp [placeYAux] at hm
  | cons e t ih =>
    intro m hm
    rw [placeYAux] at hm
    rcases List.mem_cons.mp hm with h | h
    · exact ⟨e, List.mem_cons_self e t, by rw [h], by rw [h]⟩
    · obtain ⟨n, hn, hp⟩ := ih _ m h
      exact ⟨n, List.mem_cons_of_mem e hn, hp⟩

theorem placeXAux_ids (gap : ℚ) : ∀ (cur : ℚ) (l : List Elem),
    ∀ m ∈ placeXAux gap cur l, ∃ n ∈ l, m.id = n.id := by
  intro cur l m hm
  obtain ⟨n, hn, hid, _⟩ := placeXAux_keeps_y gap cur l m hm
  exact ⟨n, hn, hid⟩

theorem placeYAux_ids (gap : ℚ) : ∀ (cur : ℚ) (l : List Elem),
    ∀ m ∈ placeYAux gap cur l, ∃ n ∈ l, m.id = n.id := by
  intro cur l m hm
  obtain ⟨n, hn, hid, _⟩ := placeYAux_keeps_x gap cur l m hm
  exact ⟨n, hn, hid⟩

/-- The element ids a call operates on. -/
def callIds : Call → List Nat
  | Call.alignEls ids _ => ids
  | Call.distributeEls ids _ _ => ids

/-- Calls whose repositioning writes only the x coordinate (or nothing):
left/right/center alignment, unknown alignment, horizontal distribution. -/
def horizontalCall : Call → Prop
  | Call.alignEls _ a => a ≠ "top" ∧ a ≠ "bottom" ∧ a ≠ "middle"
  | Call.distributeEls _ d _ => d = "horizontal"

/-- Calls whose repositioning writes only the y coordinate (or nothing):
top/bottom/middle alignment, unknown alignment, vertical distribution. -/
def verticalCall : Call → Prop
  | Call.alignEls _ a => a ≠ "left" ∧ a ≠ "right" ∧ a ≠ "center"
  | Call.distributeEls _ d _ => d ≠ "horizontal"

/-- Per-element frame condition of one align/distribute call: identity data
is preserved; sizes never shrink, and only the recorded sections change size;
an element outside the touched set moves exactly by its parent section's
auto-fit shift; a horizontal (resp. vertical) call leaves y (resp. x) at its
original value plus the auto-fit shift. -/
def FrameSpec (S : List (Nat × ℚ × ℚ)) (touched : List Nat) (hor ver : Prop)
    (e ePrime : Elem) : Prop :=
  ePrime.id = e.id ∧ ePrime.ntype = e.ntype ∧ ePrime.parent = e.parent ∧
  e.w ≤ ePrime.w ∧ e.h ≤ ePrime.h ∧
  (e.id ∉ S.map Prod.fst → ePrime.w = e.w ∧ ePrime.h = e.h) ∧
  (e.id ∉ touched →
    ePrime.x = e.x + (shiftLookup S e.parent).1 ∧
    ePrime.y = e.y + (shiftLookup S e.parent).2) ∧
  (hor → ePrime.y = e.y + (shiftLookup S e.parent).2) ∧
  (ver → ePrime.x = e.x + (shiftLookup S e.parent).1)

theorem frameSpec_nil (touched : List Nat) (hor ver : Prop) (sc : List Elem) :
    List.Forall₂ (FrameSpec [] touched hor ver) sc sc := by
  rw [List.forall₂_same]
  intro e _
  refine ⟨rfl, rfl, rfl, le_refl _, le_refl _, fun _ => ⟨rfl, rfl⟩, ?_, ?_, ?_⟩
  · exact fun _ => ⟨by rw [shiftLookup_nil]; ring, by rw [shiftLookup_nil]; ring⟩
  · exact fun _ => by rw [shiftLookup_nil]; ring
  · exact fun _ => by rw [shiftLookup_nil]; ring

/-- Composing the repositioning write-back with the auto-fit pass yields the
frame condition, given that every moved node keeps the untouched axis of a
scene element with its id. -/
theorem frame_assemble {scene moved final : List Elem} {S : List (Nat × ℚ × ℚ)}
    {touched : List Nat} {hor ver : Prop}
    (hnd : (scene.map Elem.id).Nodup)
    (hsub : ∀ m ∈ moved, m.id ∈ touched)
    (hy : hor → ∀ m ∈ moved, ∃ n ∈ scene, m.id = n.id ∧ m.y = n.y)
    (hx : ver → ∀ m ∈ moved, ∃ n ∈ scene, m.id = n.id ∧ m.x = n.x)
    (hA : AutofitSpec S (applyPositions scene moved) final) :
    List.Forall₂ (FrameSpec S touched hor ver) scene final := by
  have h1 := forall2_mem_left (applyPositions_frame moved scene)
  refine forall2_comp ?_ h1 hA
  intro e e1 e2 he1 he2
  obtain ⟨hmem, hid1, hty1, hpar1, hw1, hh1, huntouched, hykeep, hxkeep⟩ := he1
  obtain ⟨hid2, hty2, hpar2, hx2, hy2, hw2, hh2, hsz2⟩ := he2
  refine ⟨hid2.trans hid1, hty2.trans hty1, hpar2.trans hpar1,
    hw1 ▸ hw2, hh1 ▸ hh2, ?_, ?_, ?_, ?_⟩
  · intro h
    have h2 := hsz2 (by rw [hid1]; exact h)
    exact ⟨h2.1.trans hw1, h2.2.trans hh1⟩
  · intro h
    have hnm : e.id ∉ moved.map Elem.id := by
      intro hc
      obtain ⟨m, hm, hmid⟩ := List.mem_map.mp hc
      exact h (hmid ▸ hsub m hm)
    have he1e := huntouched hnm
    rw [hx2, hy2, he1e]
    exact ⟨rfl, rfl⟩
  · intro hh
    have he1y : e1.y = e.y := by
      refine hykeep (fun m hm hmid => ?_)
      obtain ⟨n, hn, hnid, hny⟩ := hy hh m hm
      have hne : n = e := List.inj_on_of_nodup_map hnd hn hmem (hnid ▸ hmid)
      rw [hny, hne]
    rw [hy2, he1y, hpar1]
  · intro hv
    have he1x : e1.x = e.x := by
      refine hxkeep (fun m hm hmid => ?_)
      obtain ⟨n, hn, hnid, hnx⟩ := hx hv m hm
      have hne : n = e := List.inj_on_of_nodup_map hnd hn hmem (hnid ▸ hmid)
      rw [hnx, hne]
    rw [hx2, he1x, hpar1]

theorem frame_main {scene : List Elem} (moved rps rnodes : List Elem)
    {touched : List Nat} {hor ver : Prop}
    (hnd : (scene.map Elem.id).Nodup)
    (hsub : ∀ m ∈ moved, m.id ∈ touched)
    (hy : hor → ∀ m ∈ moved, ∃ n ∈ scene, m.id = n.id ∧ m.y = n.y)
    (hx : ver → ∀ m ∈ moved, ∃ n ∈ scene, m.id = n.id ∧ m.x = n.x)
    (hrps : ∀ n ∈ rps, n ∈ rnodes) :
    ∃ S : List (Nat × ℚ × ℚ),
      (∀ q ∈ S, 0 ≤ q.2.1 ∧ 0 ≤ q.2.2 ∧
        (∃ n ∈ rnodes, n.parent = some q.1) ∧
        ∃ pe, findById scene q.1 = some pe ∧ pe.ntype = NType.SECTION) ∧
      List.Forall₂ (FrameSpec S touched hor ver) scene
        (resizeParentSections (applyPositions scene moved) rps) := by
  obtain ⟨S, h1, h2, h3, h4⟩ := rpsAux_spec rps (applyPositions scene moved) []
  have h4P : AutofitSpec S (applyPositions scene moved)
      (resizeParentSections (applyPositions scene moved) rps) := h4
  refine ⟨S, ?_, frame_assemble hnd hsub hy hx h4P⟩
  intro q hq
  have hfst : q.1 ∈ S.map Prod.fst := List.mem_map_of_mem Prod.fst hq
  obtain ⟨_, hmv, pe, hpe, hps⟩ := h3 q.1 hfst
  refine ⟨(h1 q hq).1, (h1 q hq).2, hmv.imp (fun n hm => ⟨hrps n hm.1, hm.2⟩), ?_⟩
  rcases findById_forall2 (fun e ePrime hP => hP.1)
      (applyPositions_frame moved scene) q.1 with
    ⟨_, hnb⟩ | ⟨e, ePrime, hse, hsb, hP⟩
  · rw [hpe] at hnb
    exact absurd hnb (by simp)
  · rw [hpe] at hsb
    have hep : ePrime = pe := by
      injection hsb with h
      exact h.symm
    refine ⟨e, hse, ?_⟩
    rw [← hP.2.1, hep]
    exact hps

/-- C10: for every alignElements and distributeElements call (over a scene
with distinct ids), there is a list of touched parent Sections — each the
parent of some resolved node and a Section in the scene, each with a
non-negative auto-fit shift — such that every element keeps its id, type and
parent; widths and heights never decrease and change only for the recorded
Sections; elements outside the resolved set move exactly by their parent
section's uniform auto-fit shift; and the repositioning writes only the
chosen axis: a horizontal call (left/right/center alignment or horizontal
distribution) leaves every y at its original value plus the auto-fit shift,
a vertical call does the same for x. -/
theorem align_distribute_frame_effects (scene : List Elem) (c : Call)
    (hnd : (scene.map Elem.id).Nodup) :
    ∃ S : List (Nat × ℚ × ℚ),
      (∀ q ∈ S, 0 ≤ q.2.1 ∧ 0 ≤ q.2.2 ∧
        (∃ n ∈ resolveNodes scene (callIds c), n.parent = some q.1) ∧
        ∃ pe, findById scene q.1 = some pe ∧ pe.ntype = NType.SECTION) ∧
      List.Forall₂
        (FrameSpec S ((resolveNodes scene (callIds c)).map Elem.id)
          (horizontalCall c) (verticalCall c))
        scene (applyCall scene c) := by
  cases c with
  | alignEls ids a =>
    simp only [applyCall, callIds, horizontalCall, verticalCall, handleAlignElements]
    split_ifs with hn
    · exact ⟨[], by simp, frameSpec_nil _ _ _ scene⟩
    · refine frame_main _ _ _ hnd ?_ ?_ ?_ ?_
      · intro m hm
        obtain ⟨n, hnm, hid⟩ := alignNodes_ids _ a m hm
        rw [hid]
        exact List.mem_map_of_mem Elem.id hnm
      · intro hh m hm
        obtain ⟨n, hnm, hid, hy⟩ := alignNodes_keeps_y _ a hh m hm
        exact ⟨n, resolveNodes_mem hnm, hid, hy⟩
      · intro hv m hm
        obtain ⟨n, hnm, hid, hx⟩ := alignNodes_keeps_x _ a hv m hm
        exact ⟨n, resolveNodes_mem hnm, hid, hx⟩
      · exact fun n hn => hn
  | distributeEls ids d sp =>
    simp only [applyCall, callIds, horizontalCall, verticalCall, handleDistributeElements]
    split_ifs with hn hd
    · exact ⟨[], by simp, frameSpec_nil _ _ _ scene⟩
    · cases hs : List.insertionSort (fun a b => a.x ≤ b.x) (resolveNodes scene ids) with
      | nil => exact ⟨[], by simp, frameSpec_nil _ _ _ scene⟩
      | cons first restSorted =>
        have hsortmem : ∀ n ∈ first :: restSorted, n ∈ resolveNodes scene ids := by
          intro n hnm
          rw [← hs] at hnm
          exact ((List.perm_insertionSort _ _).mem_iff).mp hnm
        refine frame_main _ _ _ hnd ?_ ?_ ?_ hsortmem
        · intro m hm
          obtain ⟨n, hnm, hid⟩ := placeXAux_ids _ _ _ m hm
          rw [hid]
          exact List.mem_map_of_mem Elem.id (hsortmem n hnm)
        · intro _ m hm
          obtain ⟨n, hnm, hid, hy⟩ := placeXAux_keeps_y _ _ _ m hm
          exact ⟨n, resolveNodes_mem (hsortmem n hnm), hid, hy⟩
        · intro hv _ _
          exact absurd hd hv
    · cases hs : List.insertionSort (fun a b => a.y ≤ b.y) (resolveNodes scene ids) with
      | nil => exact ⟨[], by simp, frameSpec_nil _ _ _ scene⟩
      | cons first restSorted =>
        have hsortmem : ∀ n ∈ first :: restSorted, n ∈ resolveNodes scene ids := by
          intro n hnm
          rw [← hs] at hnm
          exact ((List.perm_insertionSort _ _).mem_iff).mp hnm
        refine frame_main _ _ _ hnd ?_ ?_ ?_ hsortmem
        · intro m hm
          obtain ⟨n, hnm, hid⟩ := placeYAux_ids _ _ _ m hm
          rw [hid]
          exact List.mem_map_of_mem Elem.id (hsortmem n hnm)
        · intro hh _ _
          exact absurd hh hd
        · intro _ m hm
          obtain ⟨n, hnm, hid, hx⟩ := placeYAux_keeps_x _ _ _ m hm
          exact ⟨n, resolveNodes_mem (hsortmem n hnm), hid, hx⟩

theorem align_distribute_frame_effects_witness :
    (([mkBox 1 NType.STICKY 0 0 100 100,
       mkBox 2 NType.STICKY 10 200 100 100] : List Elem).map Elem.id).Nodup ∧
    ∃ S : List (Nat × ℚ × ℚ),
      (∀ q ∈ S, 0 ≤ q.2.1 ∧ 0 ≤ q.2.2 ∧
        (∃ n ∈ resolveNodes [mkBox 1 NType.STICKY 0 0 100 100,
            mkBox 2 NType.STICKY 10 200 100 100]
            (callIds (Call.alignEls [1, 2] "left")), n.parent = some q.1) ∧
        ∃ pe, findById [mkBox 1 NType.STICKY 0 0 100 100,
            mkBox 2 NType.STICKY 10 200 100 100] q.1 = some pe ∧
          pe.ntype = NType.SECTION) ∧
      List.Forall₂
        (FrameSpec S ((resolveNodes [mkBox 1 NType.STICKY 0 0 100 100,
            mkBox 2 NType.STICKY 10 200 100 100]
            (callIds (Call.alignEls [1, 2] "left"))).map Elem.id)
          (horizontalCall (Call.alignEls [1, 2] "left"))
          (verticalCall (Call.alignEls [1, 2] "left")))
        [mkBox 1 NType.STICKY 0 0 100 100, mkBox 2 NType.STICKY 10 200 100 100]
        (applyCall [mkBox 1 NType.STICKY 0 0 100 100,
          mkBox 2 NType.STICKY 10 200 100 100] (Call.alignEls [1, 2] "left")) :=
  ⟨by decide, align_distribute_frame_effects _ _ (by decide)⟩

end FigJam
